import Mathlib

/-!
# Verification of the sigma-proof-compiler core

A shallow embedding, in Lean 4, of the `sigma-proof-compiler` Rust crate:
the symbolic algebra (`src/equations.rs`), the structural reflection layer
(`src/absorb.rs` and the `sigma-proof-compiler-derive` macros), the
transcript adapter (`src/transcript.rs`), the generic sigma prover/verifier
(`src/compiler.rs`) and the four concrete protocols (`src/sigmas/*.rs`).

Modelling conventions:
* The scalar field `F` is `ZMod q` where `q` is the order of the Ristretto
  prime-order group (the scalar field of curve25519-dalek).
* The group `Gp` (Ristretto points) is a cyclic group of prime order `q`
  generated by the base point; it is modelled by its discrete-logarithm
  representation `ZMod q`, with the base point at `1`, point addition as
  `+`, and scalar-by-point multiplication `s * P` as multiplication.
  This is the abstract group structure the crate relies on; curve
  arithmetic itself is an external collaborator of the crate.
* Canonical 32-byte encodings (`Scalar::as_bytes`, compression) are
  modelled as little-endian 32-byte encodings of the representative
  natural number; canonical decoding succeeds exactly on values `< q`,
  mirroring `Scalar::from_canonical_bytes`.
* The Merlin sponge is external to the crate; it is modelled as the list
  of absorbed `(label, message)` pairs together with a fixed computable
  challenge-derivation function.  The crate only relies on the challenge
  being a deterministic function of the absorbed sequence.
-/

/-- The order of the Ristretto group / curve25519 scalar field:
`2^252 + 27742317777372353535851937790883648493`. -/
def qOrder : Nat := 7237005577332262213973186563042994240857116359379907606001950938285454250989

/-- The scalar field `𝔽` (`curve25519_dalek::Scalar`). -/
abbrev F : Type := ZMod qOrder

/-- The group `𝔾` (`curve25519_dalek::RistrettoPoint`), modelled by the
discrete logarithm of a point with respect to the base point.  The base
point `G` is `1`; `a + b` is point addition; `s * p` is scalar
multiplication. -/
abbrev Gp : Type := ZMod qOrder

/-- The Ristretto base point `RISTRETTO_BASEPOINT_POINT`, i.e. discrete
logarithm `1` in the `Gp` model. -/
def basepoint : Gp := 1

theorem qOrder_pos : 0 < qOrder := by norm_num [qOrder]

instance : NeZero qOrder := ⟨by norm_num [qOrder]⟩

/-- Little-endian base-256 digits of `n`, padded/truncated to `len` bytes
(model of fixed-width byte encodings). -/
def natToLEBytes : Nat → Nat → List Nat
  | _, 0 => []
  | n, len + 1 => n % 256 :: natToLEBytes (n / 256) len

/-- Recombine a little-endian byte list into a natural number. -/
def bytesToNatLE (l : List Nat) : Nat :=
  l.foldr (fun b acc => b + 256 * acc) 0

theorem natToLEBytes_length (n len : Nat) : (natToLEBytes n len).length = len := by
  induction len generalizing n with
  | zero => rfl
  | succ k ih => simp [natToLEBytes, ih]

theorem bytesToNatLE_natToLEBytes (len n : Nat) :
    bytesToNatLE (natToLEBytes n len) = n % 256 ^ len := by
  induction len generalizing n with
  | zero => simp [natToLEBytes, bytesToNatLE, Nat.mod_one]
  | succ k ih =>
      show n % 256 + 256 * bytesToNatLE (natToLEBytes (n / 256) k) = n % 256 ^ (k + 1)
      rw [ih, pow_succ']
      exact (Nat.mod_mul).symm

/-- The canonical 32-byte little-endian encoding of a scalar
(`Scalar::as_bytes`). -/
def scalarToBytes (s : F) : List Nat := natToLEBytes s.val 32

/-- `Scalar::from_canonical_bytes`: decode 32 little-endian bytes,
succeeding exactly when the value is a canonical representative
(strictly below the group order). -/
def scalarFromCanonicalBytes (l : List Nat) : Option F :=
  if bytesToNatLE l < qOrder then some ((bytesToNatLE l : Nat) : F) else none

/-- Compressed Ristretto encoding of a point (`RistrettoPoint::compress`):
an injective 32-byte encoding, modelled little-endian on the discrete log. -/
def pointCompress (p : Gp) : List Nat := natToLEBytes p.val 32

/-- `CompressedRistretto::decompress`: succeeds exactly on canonical
encodings. -/
def pointDecompress (l : List Nat) : Option Gp :=
  if bytesToNatLE l < qOrder then some ((bytesToNatLE l : Nat) : F) else none

theorem qOrder_lt_pow : qOrder < 256 ^ 32 := by norm_num [qOrder]

theorem scalarToBytes_length (s : F) : (scalarToBytes s).length = 32 :=
  natToLEBytes_length _ _

theorem pointCompress_length (p : Gp) : (pointCompress p).length = 32 :=
  natToLEBytes_length _ _

theorem val_lt_qOrder (s : F) : s.val < qOrder := ZMod.val_lt s

theorem scalarFromCanonicalBytes_scalarToBytes (s : F) :
    scalarFromCanonicalBytes (scalarToBytes s) = some s := by
  have h : bytesToNatLE (scalarToBytes s) = s.val := by
    rw [scalarToBytes, bytesToNatLE_natToLEBytes]
    exact Nat.mod_eq_of_lt (lt_trans (val_lt_qOrder s) qOrder_lt_pow)
  rw [scalarFromCanonicalBytes, h, if_pos (val_lt_qOrder s)]
  exact congrArg some (ZMod.natCast_rightInverse s)

theorem pointDecompress_pointCompress (p : Gp) :
    pointDecompress (pointCompress p) = some p := by
  have h : bytesToNatLE (pointCompress p) = p.val := by
    rw [pointCompress, bytesToNatLE_natToLEBytes]
    exact Nat.mod_eq_of_lt (lt_trans (val_lt_qOrder p) qOrder_lt_pow)
  rw [pointDecompress, h, if_pos (val_lt_qOrder p)]
  exact congrArg some (ZMod.natCast_rightInverse p)

/-- The error taxonomy of `src/errors.rs` (`SigmaProofError`).  The extra
`Panicked` constructor is not a variant of the Rust enum: it models a Rust
panic (an out-of-bounds slice index in the derived `SymInstance::from_values`),
so that panics remain distinguishable from returned errors. -/
inductive SigmaProofError where
  | UninstantiatedScalar
  | UninstantiatedPoint
  | InsufficientScalars
  | InsufficientPoints
  | TooManyScalars (expected actual : Nat)
  | FieldDeserializationFailed (field : String)
  | EquationCheckFailed
  | PsiOutputLengthMismatch
  | TranscriptFinalizationFailed
  | TranscriptError
  | InvalidScalarValues
  | Panicked
deriving DecidableEq, Repr

/-- Symbolic scalar expressions (`SymScalar` in `src/equations.rs`). -/
inductive SymScalar where
  | Const (s : F)
  | Var (s : Option F)
  | Add (a b : SymScalar)
  | Sub (a b : SymScalar)
  | Neg (a : SymScalar)
  | Mul (a b : SymScalar)
deriving DecidableEq

/-- Symbolic point expressions (`SymPoint` in `src/equations.rs`). -/
inductive SymPoint where
  | Const (p : Gp)
  /-- Modelled from the spec: the `WellKnownConst(name, P)` variant — "a
  bound group element, optionally with a display name (e.g. `G`, `H`)" —
  is constructed by `src/sigmas/mod.rs` (the constants `G` and `H`) but is
  absent from the `SymPoint` enum in `src/equations.rs` as shipped (the two
  files are from different design iterations and the crate does not compile
  together).  Per the spec it is a bound group element carrying a display
  name, and evaluation returns the bound element. -/
  | WellKnownConst (name : String) (p : Gp)
  | Var (p : Option Gp)
  | Add (a b : SymPoint)
  | Sub (a b : SymPoint)
  | Neg (a : SymPoint)
  | Scale (s : SymScalar) (a : SymPoint)
deriving DecidableEq

/-- `SymScalar::evaluate` (`src/equations.rs:21`). -/
def SymScalar.evaluate : SymScalar → Except SigmaProofError F
  | .Const s => .ok s
  | .Var s => match s with
      | some v => .ok v
      | none => .error .UninstantiatedScalar
  | .Add a b => do return (← a.evaluate) + (← b.evaluate)
  | .Sub a b => do return (← a.evaluate) - (← b.evaluate)
  | .Neg a => do return -(← a.evaluate)
  | .Mul a b => do return (← a.evaluate) * (← b.evaluate)

/-- `SymPoint::evaluate` (`src/equations.rs:44`); the `WellKnownConst`
case follows the spec (a bound group element evaluates to itself). -/
def SymPoint.evaluate : SymPoint → Except SigmaProofError Gp
  | .Const p => .ok p
  | .WellKnownConst _ p => .ok p
  | .Var p => match p with
      | some v => .ok v
      | none => .error .UninstantiatedPoint
  | .Add a b => do return (← a.evaluate) + (← b.evaluate)
  | .Sub a b => do return (← a.evaluate) - (← b.evaluate)
  | .Neg a => do return -(← a.evaluate)
  | .Scale s a => do return (← s.evaluate) * (← a.evaluate)

/-- The error produced by the first (in evaluation order) uninstantiated
`Var(None)` leaf of a scalar expression, if any. -/
def SymScalar.badLeaf : SymScalar → Option SigmaProofError
  | .Const _ => none
  | .Var (some _) => none
  | .Var none => some .UninstantiatedScalar
  | .Add a b => a.badLeaf <|> b.badLeaf
  | .Sub a b => a.badLeaf <|> b.badLeaf
  | .Neg a => a.badLeaf
  | .Mul a b => a.badLeaf <|> b.badLeaf

/-- The error produced by the first (in evaluation order) uninstantiated
`Var(None)` leaf of a point expression, if any; a leaf inside the scalar
child of a `Scale` node yields `UninstantiatedScalar`. -/
def SymPoint.badLeaf : SymPoint → Option SigmaProofError
  | .Const _ => none
  | .WellKnownConst _ _ => none
  | .Var (some _) => none
  | .Var none => some .UninstantiatedPoint
  | .Add a b => a.badLeaf <|> b.badLeaf
  | .Sub a b => a.badLeaf <|> b.badLeaf
  | .Neg a => a.badLeaf
  | .Scale s a => s.badLeaf <|> a.badLeaf

/-- `true` iff the expression contains no `Var(None)` leaf. -/
def SymScalar.instantiated : SymScalar → Bool
  | .Const _ => true
  | .Var s => s.isSome
  | .Add a b => a.instantiated && b.instantiated
  | .Sub a b => a.instantiated && b.instantiated
  | .Neg a => a.instantiated
  | .Mul a b => a.instantiated && b.instantiated

/-- `true` iff the point expression contains no `Var(None)` leaf (scalar
children of `Scale` nodes included). -/
def SymPoint.instantiated : SymPoint → Bool
  | .Const _ => true
  | .WellKnownConst _ _ => true
  | .Var p => p.isSome
  | .Add a b => a.instantiated && b.instantiated
  | .Sub a b => a.instantiated && b.instantiated
  | .Neg a => a.instantiated
  | .Scale s a => s.instantiated && a.instantiated


@[simp] theorem exceptBind_ok {α β ε : Type} (a : α) (f : α → Except ε β) :
    (Except.ok a >>= f) = f a := rfl

@[simp] theorem exceptBind_error {α β ε : Type} (e : ε) (f : α → Except ε β) :
    ((Except.error e : Except ε α) >>= f) = Except.error e := rfl

@[simp] theorem exceptMap_ok {α β ε : Type} (a : α) (f : α → β) :
    (f <$> (Except.ok a : Except ε α)) = Except.ok (f a) := rfl

@[simp] theorem exceptMap_error {α β ε : Type} (e : ε) (f : α → β) :
    (f <$> (Except.error e : Except ε α)) = Except.error e := rfl

@[simp] theorem exceptPure {α ε : Type} (a : α) :
    (pure a : Except ε α) = Except.ok a := rfl


theorem SymScalar.evaluate_badLeaf (s : SymScalar) :
    (s.badLeaf = none → ∃ v, s.evaluate = .ok v) ∧
    (∀ e, s.badLeaf = some e → s.evaluate = .error e) := by
  induction s with
  | Const v => exact ⟨fun _ => ⟨v, rfl⟩, fun e h => by simp [badLeaf] at h⟩
  | Var o =>
      cases o with
      | none => exact ⟨fun h => by simp [badLeaf] at h, fun e h => by
          simp [badLeaf] at h; simp [evaluate, h]⟩
      | some v => exact ⟨fun _ => ⟨v, rfl⟩, fun e h => by simp [badLeaf] at h⟩
  | Add a b iha ihb | Sub a b iha ihb | Mul a b iha ihb =>
      constructor
      · intro h
        rw [badLeaf, Option.orElse_eq_none] at h
        obtain ⟨va, hva⟩ := iha.1 h.1
        obtain ⟨vb, hvb⟩ := ihb.1 h.2
        simp only [evaluate, hva, hvb, exceptBind_ok, exceptMap_ok]
        exact ⟨_, rfl⟩
      · intro e h
        rw [badLeaf] at h
        cases ha : a.badLeaf with
        | some ea =>
            rw [ha] at h
            simp at h
            subst h
            simp [evaluate, iha.2 ea ha]
        | none =>
            rw [ha] at h
            simp at h
            obtain ⟨va, hva⟩ := iha.1 ha
            simp [evaluate, hva, ihb.2 e h]
  | Neg a iha =>
      constructor
      · intro h
        rw [badLeaf] at h
        obtain ⟨va, hva⟩ := iha.1 h
        exact ⟨-va, by simp [evaluate, hva]⟩
      · intro e h
        rw [badLeaf] at h
        simp [evaluate, iha.2 e h]

theorem SymPoint.evaluate_badLeafP (p : SymPoint) :
    (p.badLeaf = none → ∃ v, p.evaluate = .ok v) ∧
    (∀ e, p.badLeaf = some e → p.evaluate = .error e) := by
  induction p with
  | Const v => exact ⟨fun _ => ⟨v, rfl⟩, fun e h => by simp [badLeaf] at h⟩
  | WellKnownConst n v => exact ⟨fun _ => ⟨v, rfl⟩, fun e h => by simp [badLeaf] at h⟩
  | Var o =>
      cases o with
      | none => exact ⟨fun h => by simp [badLeaf] at h, fun e h => by
          simp [badLeaf] at h; simp [evaluate, h]⟩
      | some v => exact ⟨fun _ => ⟨v, rfl⟩, fun e h => by simp [badLeaf] at h⟩
  | Add a b iha ihb | Sub a b iha ihb =>
      constructor
      · intro h
        rw [badLeaf, Option.orElse_eq_none] at h
        obtain ⟨va, hva⟩ := iha.1 h.1
        obtain ⟨vb, hvb⟩ := ihb.1 h.2
        simp only [evaluate, hva, hvb, exceptBind_ok, exceptMap_ok]
        exact ⟨_, rfl⟩
      · intro e h
        rw [badLeaf] at h
        cases ha : a.badLeaf with
        | some ea =>
            rw [ha] at h
            simp at h
            subst h
            simp [evaluate, iha.2 ea ha]
        | none =>
            rw [ha] at h
            simp at h
            obtain ⟨va, hva⟩ := iha.1 ha
            simp [evaluate, hva, ihb.2 e h]
  | Neg a iha =>
      constructor
      · intro h
        rw [badLeaf] at h
        obtain ⟨va, hva⟩ := iha.1 h
        exact ⟨-va, by simp [evaluate, hva]⟩
      · intro e h
        rw [badLeaf] at h
        simp [evaluate, iha.2 e h]
  | Scale s a iha =>
      have hs := SymScalar.evaluate_badLeaf s
      constructor
      · intro h
        rw [badLeaf, Option.orElse_eq_none] at h
        obtain ⟨vs, hvs⟩ := hs.1 h.1
        obtain ⟨va, hva⟩ := iha.1 h.2
        simp only [evaluate, hvs, hva, exceptBind_ok, exceptMap_ok]
        exact ⟨_, rfl⟩
      · intro e h
        rw [badLeaf] at h
        cases hsb : s.badLeaf with
        | some es =>
            rw [hsb] at h
            simp at h
            subst h
            simp [evaluate, hs.2 es hsb]
        | none =>
            rw [hsb] at h
            simp at h
            obtain ⟨vs, hvs⟩ := hs.1 hsb
            simp [evaluate, hvs, iha.2 e h]

theorem SymScalar.instantiated_iff_badLeaf (s : SymScalar) :
    s.instantiated = true ↔ s.badLeaf = none := by
  induction s with
  | Const v => simp [instantiated, badLeaf]
  | Var o => cases o <;> simp [instantiated, badLeaf]
  | Add a b iha ihb | Sub a b iha ihb | Mul a b iha ihb =>
      simp [instantiated, badLeaf, iha, ihb, Option.orElse_eq_none]
  | Neg a iha => simpa [instantiated, badLeaf] using iha

theorem SymPoint.instantiated_iff_badLeafP (p : SymPoint) :
    p.instantiated = true ↔ p.badLeaf = none := by
  induction p with
  | Const v => simp [instantiated, badLeaf]
  | WellKnownConst n v => simp [instantiated, badLeaf]
  | Var o => cases o <;> simp [instantiated, badLeaf]
  | Add a b iha ihb | Sub a b iha ihb =>
      simp [instantiated, badLeaf, iha, ihb, Option.orElse_eq_none]
  | Neg a iha => simpa [instantiated, badLeaf] using iha
  | Scale s a iha =>
      simp [instantiated, badLeaf, SymScalar.instantiated_iff_badLeaf, iha,
        Option.orElse_eq_none]

theorem SymScalar.evaluate_ok_of_instantiated {s : SymScalar}
    (h : s.instantiated = true) : ∃ v, s.evaluate = .ok v :=
  (SymScalar.evaluate_badLeaf s).1 ((SymScalar.instantiated_iff_badLeaf s).mp h)

theorem SymPoint.evaluate_ok_of_instantiatedP {p : SymPoint}
    (h : p.instantiated = true) : ∃ v, p.evaluate = .ok v :=
  (SymPoint.evaluate_badLeafP p).1 ((SymPoint.instantiated_iff_badLeafP p).mp h)

/-- Byte strings of the transcript labels used by the driver:
`b""`, `b"r"`, `b"e"`, `b"z"` (ASCII). -/
def labelEmpty : List Nat := []

/-- The commitment label `b"r"`. -/
def labelR : List Nat := [114]

/-- The challenge label `b"e"`. -/
def labelE : List Nat := [101]

/-- The response label `b"z"`. -/
def labelZ : List Nat := [122]

/-- State of the external Merlin sponge: the protocol label followed by
the sequence of absorbed `(label, message)` pairs (and challenge draws,
which also mutate the sponge). -/
abbrev SpongeState : Type := List (List Nat × List Nat)

/-- Fold a byte list into a number (stand-in for the sponge's internal
absorption; only determinism matters to the crate). -/
def encodeBytes (l : List Nat) : Nat :=
  l.foldr (fun b acc => b + 1 + 257 * acc) 0

/-- Fold a sponge state into a number. -/
def encodeSponge (s : SpongeState) : Nat :=
  s.foldr (fun lm acc => encodeBytes lm.1 + 131 * encodeBytes lm.2 + 65537 * acc + 1) 0

/-- The challenge scalar drawn from a sponge state: models
`challenge_bytes` followed by `Scalar::from_bytes_mod_order_wide` (a
deterministic function of everything absorbed, reduced mod the group
order). -/
def challengeScalar (s : SpongeState) : F := (encodeSponge s : Nat)

/-- `ProofTranscript` (`src/transcript.rs`): the sponge, the proof byte
buffer with its cursor, and the role flag.  In prover mode the buffer
accumulates emitted bytes; in verifier mode it is a fixed buffer consumed
from position `pos`. -/
structure ProofTranscript where
  sponge : SpongeState
  buf : List Nat
  pos : Nat
  isProver : Bool
deriving DecidableEq

/-- `ProofTranscript::new_prover`. -/
def ProofTranscript.newProver (label : List Nat) : ProofTranscript :=
  ⟨[(label, [])], [], 0, true⟩

/-- `ProofTranscript::new_verifier`. -/
def ProofTranscript.newVerifier (label : List Nat) (proof : List Nat) : ProofTranscript :=
  ⟨[(label, [])], proof, 0, false⟩

/-- `common_absorb_scalar`: absorb the scalar's canonical bytes into the
sponge only. -/
def ProofTranscript.commonAbsorbScalar (t : ProofTranscript) (label : List Nat)
    (s : F) : ProofTranscript :=
  { t with sponge := t.sponge ++ [(label, scalarToBytes s)] }

/-- `common_absorb_point`: absorb the compressed point into the sponge
only. -/
def ProofTranscript.commonAbsorbPoint (t : ProofTranscript) (label : List Nat)
    (p : Gp) : ProofTranscript :=
  { t with sponge := t.sponge ++ [(label, pointCompress p)] }

/-- `prover_absorb_scalar`: absorb into the sponge and append the 32-byte
canonical encoding to the outgoing buffer.  (The Rust function asserts
prover mode; the driver only calls it on prover transcripts.) -/
def ProofTranscript.proverAbsorbScalar (t : ProofTranscript) (label : List Nat)
    (s : F) : ProofTranscript :=
  { t.commonAbsorbScalar label s with buf := t.buf ++ scalarToBytes s }

/-- `prover_absorb_point`: absorb into the sponge and append the 32-byte
compressed encoding to the outgoing buffer. -/
def ProofTranscript.proverAbsorbPoint (t : ProofTranscript) (label : List Nat)
    (p : Gp) : ProofTranscript :=
  { t.commonAbsorbPoint label p with buf := t.buf ++ pointCompress p }

/-- `challenge`: draw a challenge scalar; the draw also mutates the
sponge (modelled by recording the challenge label). -/
def ProofTranscript.challenge (t : ProofTranscript) (label : List Nat) :
    F × ProofTranscript :=
  let t' : ProofTranscript := { t with sponge := t.sponge ++ [(label, [])] }
  (challengeScalar t'.sponge, t')

/-- `finalize`: return the accumulated message buffer. -/
def ProofTranscript.finalize (t : ProofTranscript) : List Nat := t.buf

/-- `verifier_receive_points` (`src/transcript.rs:45`): read `count`
32-byte blocks from the buffer, decompress each, absorb each into the
sponge.  `none` on a short read or an invalid encoding. -/
def ProofTranscript.verifierReceivePoints (t : ProofTranscript) (label : List Nat) :
    Nat → Option (List Gp × ProofTranscript)
  | 0 => some ([], t)
  | count + 1 =>
      if t.pos + 32 ≤ t.buf.length then
        match pointDecompress ((t.buf.drop t.pos).take 32) with
        | none => none
        | some p =>
            -- cursor advanced by the 32-byte read, then the point absorbed
            let t' : ProofTranscript :=
              ⟨t.sponge ++ [(label, pointCompress p)], t.buf, t.pos + 32, t.isProver⟩
            match t'.verifierReceivePoints label count with
            | none => none
            | some (ps, t'') => some (p :: ps, t'')
      else none

/-- One reading pass of `verifier_receives_all_scalars`: read `count`
32-byte blocks, requiring each to be a canonical scalar encoding,
absorbing each.  The loop in the source reads until `read_exact` fails,
which performs exactly `⌊remaining / 32⌋` successful reads. -/
def ProofTranscript.readScalarsLoop (t : ProofTranscript) (label : List Nat) :
    Nat → Option (List F × ProofTranscript)
  | 0 => some ([], t)
  | count + 1 =>
      if t.pos + 32 ≤ t.buf.length then
        match scalarFromCanonicalBytes ((t.buf.drop t.pos).take 32) with
        | none => none
        | some s =>
            -- cursor advanced by the 32-byte read, then the scalar absorbed
            let t' : ProofTranscript :=
              ⟨t.sponge ++ [(label, scalarToBytes s)], t.buf, t.pos + 32, t.isProver⟩
            match t'.readScalarsLoop label count with
            | none => none
            | some (ss, t'') => some (s :: ss, t'')
      else some ([], t)

/-- `verifier_receives_all_scalars` (`src/transcript.rs:45-63`): consume
the remainder of the buffer as 32-byte canonical scalars; `none` on any
non-canonical scalar. -/
def ProofTranscript.verifierReceivesAllScalars (t : ProofTranscript)
    (label : List Nat) : Option (List F × ProofTranscript) :=
  t.readScalarsLoop label ((t.buf.length - t.pos) / 32)

/-- A bundled Sigma protocol: the `SigmaProof` trait of `src/compiler.rs`
together with the `SymWitness` capability set of its witness type and the
`SymInstance` capability set of its instance type (`src/absorb.rs`).
`wRand` takes the stream of field elements drawn from the caller's RNG
(`Scalar::random` draws, in order). -/
structure Protocol (W I : Type) where
  label : List Nat
  wRand : (Nat → F) → W
  wValues : W → Except SigmaProofError (List F)
  wFromValues : List F → Except SigmaProofError W
  wNumScalars : Nat
  iPoints : I → List SymPoint
  iScalars : I → List SymScalar
  f : I → List SymPoint
  psi : W → I → List SymPoint

/-- `SigmaProof::prove` (`src/compiler.rs:149-183`), with the RNG made
explicit: `r` is the stream of field elements the RNG produces, so that
`W::rand(rng)` is `wRand r`. -/
def Protocol.prove {W I : Type} (P : Protocol W I) (witness : W) (inst : I)
    (r : Nat → F) : Except SigmaProofError (List Nat) := do
  let t := ProofTranscript.newProver P.label
  let t ← (P.iPoints inst).foldlM (fun t p => do
      pure (t.commonAbsorbPoint labelEmpty (← p.evaluate))) t
  let t ← (P.iScalars inst).foldlM (fun t s => do
      pure (t.commonAbsorbScalar labelEmpty (← s.evaluate))) t
  let alphas := P.wRand r
  let committedAlphas := P.psi alphas inst
  let t ← committedAlphas.foldlM (fun t p => do
      pure (t.proverAbsorbPoint labelR (← p.evaluate))) t
  let et := t.challenge labelE
  let e := et.1
  let t := et.2
  let wv ← P.wValues witness
  let av ← P.wValues alphas
  let t := ((wv.zip av).map (fun sa => sa.1 * e + sa.2)).foldl
      (fun t z => t.proverAbsorbScalar labelZ z) t
  pure t.finalize

/-- The final equation loop of `SigmaProof::verify`: for each
`((X_k, A_k), ψ_k)` check `ψ_k.evaluate() == A_k + e·X_k`, failing with
`EquationCheckFailed` on the first mismatch. -/
def checkEquations (e : F) : List ((Gp × Gp) × SymPoint) → Except SigmaProofError Unit
  | [] => .ok ()
  | ((x, a), psik) :: rest => do
      let v ← psik.evaluate
      if v = a + e * x then checkEquations e rest
      else .error .EquationCheckFailed

/-- `SigmaProof::verify` (`src/compiler.rs:185-238`).  (The source also
prints the number of received scalars to stdout; that debug output has no
semantic effect and is not modelled.) -/
def Protocol.verify {W I : Type} (P : Protocol W I) (inst : I) (proof : List Nat) :
    Except SigmaProofError Unit :=
  if proof.length % 32 ≠ 0 then .error .TranscriptFinalizationFailed
  else do
    let t := ProofTranscript.newVerifier P.label proof
    let bigX ← (P.f inst).mapM SymPoint.evaluate
    let t ← (P.iPoints inst).foldlM (fun t p => do
        pure (t.commonAbsorbPoint labelEmpty (← p.evaluate))) t
    let t ← (P.iScalars inst).foldlM (fun t s => do
        pure (t.commonAbsorbScalar labelEmpty (← s.evaluate))) t
    let recA ← match t.verifierReceivePoints labelR bigX.length with
      | none => Except.error .TranscriptError
      | some res => Except.ok res
    let bigA := recA.1
    let et := recA.2.challenge labelE
    let e := et.1
    let recS ← match et.2.verifierReceivesAllScalars labelZ with
      | none => Except.error .TranscriptError
      | some res => Except.ok res
    let sigmas := recS.1
    let sigmasAsInput ← P.wFromValues sigmas
    let psiOutput := P.psi sigmasAsInput inst
    if bigX.length ≠ psiOutput.length then Except.error .PsiOutputLengthMismatch
    else checkEquations e ((bigX.zip bigA).zip psiOutput)

/-- The constant `G` of `src/sigmas/mod.rs:10`:
`SymPoint::WellKnownConst("G", RISTRETTO_BASEPOINT_POINT)`. -/
def constG : SymPoint := .WellKnownConst "G" basepoint

/-- The constant `H` of `src/sigmas/mod.rs:13-22`:
`SymPoint::WellKnownConst("H", RistrettoPoint::from_uniform_bytes(0..=63))`.
The underlying point is produced by the external curve library from a
fixed 64-byte seed; its discrete logarithm is unknown, so it is modelled
as a parameter `h : Gp`.  All theorems quantifying over `h` therefore
cover the actual `H`. -/
def constH (h : Gp) : SymPoint := .WellKnownConst "H" h

/-- `SchnorrWitness` (`src/sigmas/schnorr.rs`): `{ privatekey: SymScalar }`. -/
structure SchnorrWitness where
  privatekey : SymScalar
deriving DecidableEq

/-- `SchnorrInstance` (`src/sigmas/schnorr.rs`): `{ pubkey: SymPoint }`. -/
structure SchnorrInstance where
  pubkey : SymPoint
deriving DecidableEq

/-- Derived `SymWitness::rand` for `SchnorrWitness`: each scalar field is
`SymScalar::Const(Scalar::random(rng))`, drawn in field order. -/
def SchnorrWitness.rand (r : Nat → F) : SchnorrWitness := ⟨.Const (r 0)⟩

/-- Derived `SymWitness::values` for `SchnorrWitness`. -/
def SchnorrWitness.values (w : SchnorrWitness) : Except SigmaProofError (List F) :=
  match w.privatekey with
  | .Var none => .error .UninstantiatedScalar
  | pk => do pure [← pk.evaluate]

/-- Derived `SymWitness::from_values` for `SchnorrWitness`: one scalar
field; fewer inputs yield `InsufficientScalars`, more yield
`TooManyScalars{expected: 1, actual}` from the final cursor check. -/
def SchnorrWitness.fromValues (scalars : List F) : Except SigmaProofError SchnorrWitness :=
  match scalars with
  | [] => .error .InsufficientScalars
  | [s] => .ok ⟨.Var (some s)⟩
  | _ :: _ :: _ => .error (.TooManyScalars 1 scalars.length)

/-- Derived `SymInstance::points` for `SchnorrInstance`. -/
def SchnorrInstance.points (i : SchnorrInstance) : List SymPoint := [i.pubkey]

/-- Derived `SymInstance::scalars` for `SchnorrInstance`. -/
def SchnorrInstance.scalars (_ : SchnorrInstance) : List SymScalar := []

/-- `SchnorrIdentityProtocol` (`src/sigmas/schnorr.rs`): label
`"schnorr-identity-protocol"`, `f(X) = [pubkey]`,
`ψ(ω, X) = [privatekey · Const(RISTRETTO_BASEPOINT_POINT)]`. -/
def schnorrProtocol : Protocol SchnorrWitness SchnorrInstance where
  label := ("schnorr-identity-protocol".toList).map Char.toNat
  wRand := SchnorrWitness.rand
  wValues := SchnorrWitness.values
  wFromValues := SchnorrWitness.fromValues
  wNumScalars := 1
  iPoints := SchnorrInstance.points
  iScalars := SchnorrInstance.scalars
  f := fun inst => [inst.pubkey]
  psi := fun w _ => [.Scale w.privatekey (.Const basepoint)]

/-- `OkamotoWitness` (`src/sigmas/okamoto.rs`): `{ x, y : SymScalar }`. -/
structure OkamotoWitness where
  x : SymScalar
  y : SymScalar
deriving DecidableEq

/-- `OkamotoInstance` (`src/sigmas/okamoto.rs`): `{ point: SymPoint }`. -/
structure OkamotoInstance where
  point : SymPoint
deriving DecidableEq

/-- Derived `SymWitness::rand` for `OkamotoWitness`. -/
def OkamotoWitness.rand (r : Nat → F) : OkamotoWitness := ⟨.Const (r 0), .Const (r 1)⟩

/-- Derived `SymWitness::values` for `OkamotoWitness` (fields in
declaration order). -/
def OkamotoWitness.values (w : OkamotoWitness) : Except SigmaProofError (List F) :=
  match w.x with
  | .Var none => .error .UninstantiatedScalar
  | wx => do
      let vx ← wx.evaluate
      match w.y with
      | .Var none => .error .UninstantiatedScalar
      | wy => do
          let vy ← wy.evaluate
          pure [vx, vy]

/-- Derived `SymWitness::from_values` for `OkamotoWitness` (arity 2). -/
def OkamotoWitness.fromValues (scalars : List F) : Except SigmaProofError OkamotoWitness :=
  match scalars with
  | [] => .error .InsufficientScalars
  | [_] => .error .InsufficientScalars
  | [a, b] => .ok ⟨.Var (some a), .Var (some b)⟩
  | _ :: _ :: _ :: _ => .error (.TooManyScalars 2 scalars.length)

/-- Derived `SymInstance::points` for `OkamotoInstance`. -/
def OkamotoInstance.points (i : OkamotoInstance) : List SymPoint := [i.point]

/-- Derived `SymInstance::scalars` for `OkamotoInstance`. -/
def OkamotoInstance.scalars (_ : OkamotoInstance) : List SymScalar := []

/-- `Okamoto` (`src/sigmas/okamoto.rs`): label `"okamoto-protocol"`,
`f(X) = [point]`, `ψ(ω, X) = [(x·G) + (y·H)]`, parameterized by the
discrete log `h` of the external constant `H`. -/
def okamotoProtocol (h : Gp) : Protocol OkamotoWitness OkamotoInstance where
  label := ("okamoto-protocol".toList).map Char.toNat
  wRand := OkamotoWitness.rand
  wValues := OkamotoWitness.values
  wFromValues := OkamotoWitness.fromValues
  wNumScalars := 2
  iPoints := OkamotoInstance.points
  iScalars := OkamotoInstance.scalars
  f := fun inst => [inst.point]
  psi := fun w _ => [.Add (.Scale w.x constG) (.Scale w.y (constH h))]

/-- `ChaumWitness` (`src/sigmas/chaum.rs`): `{ x: SymScalar }`. -/
structure ChaumWitness where
  x : SymScalar
deriving DecidableEq

/-- `ChaumInstance` (`src/sigmas/chaum.rs`): `{ point1, point2 : SymPoint }`. -/
structure ChaumInstance where
  point1 : SymPoint
  point2 : SymPoint
deriving DecidableEq

/-- Derived `SymWitness::rand` for `ChaumWitness`. -/
def ChaumWitness.rand (r : Nat → F) : ChaumWitness := ⟨.Const (r 0)⟩

/-- Derived `SymWitness::values` for `ChaumWitness`. -/
def ChaumWitness.values (w : ChaumWitness) : Except SigmaProofError (List F) :=
  match w.x with
  | .Var none => .error .UninstantiatedScalar
  | wx => do pure [← wx.evaluate]

/-- Derived `SymWitness::from_values` for `ChaumWitness` (arity 1). -/
def ChaumWitness.fromValues (scalars : List F) : Except SigmaProofError ChaumWitness :=
  match scalars with
  | [] => .error .InsufficientScalars
  | [s] => .ok ⟨.Var (some s)⟩
  | _ :: _ :: _ => .error (.TooManyScalars 1 scalars.length)

/-- Derived `SymInstance::points` for `ChaumInstance` (declaration order). -/
def ChaumInstance.points (i : ChaumInstance) : List SymPoint := [i.point1, i.point2]

/-- Derived `SymInstance::scalars` for `ChaumInstance`. -/
def ChaumInstance.scalars (_ : ChaumInstance) : List SymScalar := []

/-- `Chaum` (`src/sigmas/chaum.rs`): label `"chaum-protocol"`,
`f(X) = [point1, point2]`, `ψ(ω, X) = [x·G, x·H]`. -/
def chaumProtocol (h : Gp) : Protocol ChaumWitness ChaumInstance where
  label := ("chaum-protocol".toList).map Char.toNat
  wRand := ChaumWitness.rand
  wValues := ChaumWitness.values
  wFromValues := ChaumWitness.fromValues
  wNumScalars := 1
  iPoints := ChaumInstance.points
  iScalars := ChaumInstance.scalars
  f := fun inst => [inst.point1, inst.point2]
  psi := fun w _ => [.Scale w.x constG, .Scale w.x (constH h)]

/-- `ZeroCheckWitness` (`src/sigmas/zero.rs`): `{ secret_key: SymScalar }`. -/
structure ZeroCheckWitness where
  secretKey : SymScalar
deriving DecidableEq

/-- `ZeroCheckInstance` (`src/sigmas/zero.rs`):
`{ pubkey, commitment, handle : SymPoint }`. -/
structure ZeroCheckInstance where
  pubkey : SymPoint
  commitment : SymPoint
  handle : SymPoint
deriving DecidableEq

/-- Derived `SymWitness::rand` for `ZeroCheckWitness`. -/
def ZeroCheckWitness.rand (r : Nat → F) : ZeroCheckWitness := ⟨.Const (r 0)⟩

/-- Derived `SymWitness::values` for `ZeroCheckWitness`. -/
def ZeroCheckWitness.values (w : ZeroCheckWitness) : Except SigmaProofError (List F) :=
  match w.secretKey with
  | .Var none => .error .UninstantiatedScalar
  | ws => do pure [← ws.evaluate]

/-- Derived `SymWitness::from_values` for `ZeroCheckWitness` (arity 1). -/
def ZeroCheckWitness.fromValues (scalars : List F) : Except SigmaProofError ZeroCheckWitness :=
  match scalars with
  | [] => .error .InsufficientScalars
  | [s] => .ok ⟨.Var (some s)⟩
  | _ :: _ :: _ => .error (.TooManyScalars 1 scalars.length)

/-- Derived `SymInstance::points` for `ZeroCheckInstance` (declaration
order: pubkey, commitment, handle). -/
def ZeroCheckInstance.points (i : ZeroCheckInstance) : List SymPoint :=
  [i.pubkey, i.commitment, i.handle]

/-- Derived `SymInstance::scalars` for `ZeroCheckInstance`. -/
def ZeroCheckInstance.scalars (_ : ZeroCheckInstance) : List SymScalar := []

/-- `ZeroCheckProtocol` (`src/sigmas/zero.rs`): label
`"zero-check-protocol"`, `f(X) = [commitment, handle]`,
`ψ(ω, X) = [secret_key · Const(G-point), secret_key · pubkey]` (the source
writes `SymPoint::Const(*G)`, the underlying value of `G`, i.e. the base
point). -/
def zeroCheckProtocol : Protocol ZeroCheckWitness ZeroCheckInstance where
  label := ("zero-check-protocol".toList).map Char.toNat
  wRand := ZeroCheckWitness.rand
  wValues := ZeroCheckWitness.values
  wFromValues := ZeroCheckWitness.fromValues
  wNumScalars := 1
  iPoints := ZeroCheckInstance.points
  iScalars := ZeroCheckInstance.scalars
  f := fun inst => [inst.commitment, inst.handle]
  psi := fun w inst => [.Scale w.secretKey (.Const basepoint), .Scale w.secretKey inst.pubkey]


theorem join_map_length_32 {α : Type} (f : α → List Nat)
    (hf : ∀ x, (f x).length = 32) (l : List α) :
    ((l.map f).flatten).length = 32 * l.length := by
  induction l with
  | nil => simp
  | cons a l ih => simp [ih, hf a]; ring

theorem verifierReceivePoints_encoded (lab : List Nat) (A : List Gp) :
    ∀ (t : ProofTranscript) (rest : List Nat),
    t.buf.drop t.pos = (A.map pointCompress).flatten ++ rest →
    t.verifierReceivePoints lab A.length =
      some (A, ⟨t.sponge ++ A.map (fun p => (lab, pointCompress p)), t.buf,
        t.pos + 32 * A.length, t.isProver⟩) := by
  induction A with
  | nil => intro t rest _; simp [ProofTranscript.verifierReceivePoints]
  | cons a A ih =>
      intro t rest h
      rw [List.map_cons, List.flatten_cons, List.append_assoc] at h
      have hlen : (t.buf.drop t.pos).length = t.buf.length - t.pos := by
        simp
      have hblock : (pointCompress a).length = 32 := pointCompress_length a
      have hge : t.pos + 32 ≤ t.buf.length := by
        rw [h] at hlen
        simp [hblock] at hlen
        omega
      have htake : (t.buf.drop t.pos).take 32 = pointCompress a := by
        rw [h, ← hblock, List.take_left]
      have hdrop : (t.buf.drop t.pos).drop 32 = (A.map pointCompress).flatten ++ rest := by
        rw [h, ← hblock, List.drop_left]
      show ProofTranscript.verifierReceivePoints t lab (A.length + 1) = _
      rw [ProofTranscript.verifierReceivePoints, if_pos hge, htake,
        pointDecompress_pointCompress]
      have hih := ih ⟨t.sponge ++ [(lab, pointCompress a)], t.buf, t.pos + 32, t.isProver⟩
        rest (by simpa [List.drop_drop, Nat.add_comm] using hdrop)
      simp only [hih, Option.some.injEq, Prod.mk.injEq, ProofTranscript.mk.injEq,
        List.map_cons, List.length_cons]
      refine ⟨?_, ?_, trivial, ?_, trivial⟩
      · simp
      · simp
      · omega

theorem readScalarsLoop_encoded (lab : List Nat) (zs : List F) :
    ∀ (t : ProofTranscript),
    t.buf.drop t.pos = (zs.map scalarToBytes).flatten →
    t.readScalarsLoop lab zs.length =
      some (zs, ⟨t.sponge ++ zs.map (fun s => (lab, scalarToBytes s)), t.buf,
        t.pos + 32 * zs.length, t.isProver⟩) := by
  induction zs with
  | nil => intro t _; simp [ProofTranscript.readScalarsLoop]
  | cons z zs ih =>
      intro t h
      rw [List.map_cons, List.flatten_cons] at h
      have hlen : (t.buf.drop t.pos).length = t.buf.length - t.pos := by
        simp
      have hblock : (scalarToBytes z).length = 32 := scalarToBytes_length z
      have hge : t.pos + 32 ≤ t.buf.length := by
        rw [h] at hlen
        simp [hblock] at hlen
        omega
      have htake : (t.buf.drop t.pos).take 32 = scalarToBytes z := by
        rw [h, ← hblock, List.take_left]
      have hdrop : (t.buf.drop t.pos).drop 32 = (zs.map scalarToBytes).flatten := by
        rw [h, ← hblock, List.drop_left]
      show ProofTranscript.readScalarsLoop t lab (zs.length + 1) = _
      rw [ProofTranscript.readScalarsLoop, if_pos hge, htake,
        scalarFromCanonicalBytes_scalarToBytes]
      have hih := ih ⟨t.sponge ++ [(lab, scalarToBytes z)], t.buf, t.pos + 32, t.isProver⟩
        (by simpa [List.drop_drop, Nat.add_comm] using hdrop)
      simp only [hih, Option.some.injEq, Prod.mk.injEq, ProofTranscript.mk.injEq,
        List.map_cons, List.length_cons]
      refine ⟨?_, ?_, trivial, ?_, trivial⟩
      · simp
      · simp
      · omega

theorem verifierReceivesAllScalars_encoded (lab : List Nat) (zs : List F)
    (t : ProofTranscript) (h : t.buf.drop t.pos = (zs.map scalarToBytes).flatten) :
    t.verifierReceivesAllScalars lab =
      some (zs, ⟨t.sponge ++ zs.map (fun s => (lab, scalarToBytes s)), t.buf,
        t.pos + 32 * zs.length, t.isProver⟩) := by
  have hlen : t.buf.length - t.pos = 32 * zs.length := by
    have hc := congrArg List.length h
    simpa [join_map_length_32 _ scalarToBytes_length zs] using hc
  rw [ProofTranscript.verifierReceivesAllScalars, hlen,
    Nat.mul_div_cancel_left _ (by norm_num : (0:Nat) < 32)]
  exact readScalarsLoop_encoded lab zs t h

theorem mapM_ok_length {α β : Type} (f : α → Except SigmaProofError β) :
    ∀ (l : List α) (v : List β), l.mapM f = .ok v → v.length = l.length := by
  intro l
  induction l with
  | nil => intro v h; simp [List.mapM.loop] at h; simp [← h]
  | cons a l ih =>
      intro v h
      rw [List.mapM_cons] at h
      cases hfa : f a with
      | error e => rw [hfa] at h; simp at h
      | ok b =>
          rw [hfa] at h
          cases hml : l.mapM f with
          | error e => rw [hml] at h; simp at h
          | ok bs =>
              rw [hml] at h
              simp at h
              rw [← h]
              simp [ih bs hml]

theorem foldlM_commonPoints (lab : List Nat) :
    ∀ (ps : List SymPoint) (t : ProofTranscript) (vs : List Gp),
    ps.mapM SymPoint.evaluate = .ok vs →
    (ps.foldlM (fun t p => do pure (t.commonAbsorbPoint lab (← p.evaluate))) t)
      = .ok ⟨t.sponge ++ vs.map (fun v => (lab, pointCompress v)), t.buf, t.pos, t.isProver⟩ := by
  intro ps
  induction ps with
  | nil => intro t vs h; simp [List.mapM.loop] at h; subst h; simp
  | cons p ps ih =>
      intro t vs h
      rw [List.mapM_cons] at h
      cases hp : p.evaluate with
      | error e => rw [hp] at h; simp at h
      | ok v =>
          rw [hp] at h
          cases hps : ps.mapM SymPoint.evaluate with
          | error e => rw [hps] at h; simp at h
          | ok vs' =>
              rw [hps] at h
              simp at h
              rw [List.foldlM_cons, hp]
              have ihn := ih (ProofTranscript.commonAbsorbPoint t lab v) vs' hps
              simp only [exceptBind_ok, exceptMap_ok, exceptPure] at ihn ⊢
              rw [ihn]
              simp [ProofTranscript.commonAbsorbPoint, ← h, List.append_assoc]

theorem foldlM_commonScalars (lab : List Nat) :
    ∀ (ss : List SymScalar) (t : ProofTranscript) (vs : List F),
    ss.mapM SymScalar.evaluate = .ok vs →
    (ss.foldlM (fun t s => do pure (t.commonAbsorbScalar lab (← s.evaluate))) t)
      = .ok ⟨t.sponge ++ vs.map (fun v => (lab, scalarToBytes v)), t.buf, t.pos, t.isProver⟩ := by
  intro ss
  induction ss with
  | nil => intro t vs h; simp [List.mapM.loop] at h; subst h; simp
  | cons s ss ih =>
      intro t vs h
      rw [List.mapM_cons] at h
      cases hs : s.evaluate with
      | error e => rw [hs] at h; simp at h
      | ok v =>
          rw [hs] at h
          cases hss : ss.mapM SymScalar.evaluate with
          | error e => rw [hss] at h; simp at h
          | ok vs' =>
              rw [hss] at h
              simp at h
              rw [List.foldlM_cons, hs]
              have ihn := ih (ProofTranscript.commonAbsorbScalar t lab v) vs' hss
              simp only [exceptBind_ok, exceptMap_ok, exceptPure] at ihn ⊢
              rw [ihn]
              simp [ProofTranscript.commonAbsorbScalar, ← h, List.append_assoc]

theorem foldlM_proverPoints (lab : List Nat) :
    ∀ (ps : List SymPoint) (t : ProofTranscript) (vs : List Gp),
    ps.mapM SymPoint.evaluate = .ok vs →
    (ps.foldlM (fun t p => do pure (t.proverAbsorbPoint lab (← p.evaluate))) t)
      = .ok ⟨t.sponge ++ vs.map (fun v => (lab, pointCompress v)),
          t.buf ++ (vs.map pointCompress).flatten, t.pos, t.isProver⟩ := by
  intro ps
  induction ps with
  | nil => intro t vs h; simp [List.mapM.loop] at h; subst h; simp
  | cons p ps ih =>
      intro t vs h
      rw [List.mapM_cons] at h
      cases hp : p.evaluate with
      | error e => rw [hp] at h; simp at h
      | ok v =>
          rw [hp] at h
          cases hps : ps.mapM SymPoint.evaluate with
          | error e => rw [hps] at h; simp at h
          | ok vs' =>
              rw [hps] at h
              simp at h
              rw [List.foldlM_cons, hp]
              have ihn := ih (ProofTranscript.proverAbsorbPoint t lab v) vs' hps
              simp only [exceptBind_ok, exceptMap_ok, exceptPure] at ihn ⊢
              rw [ihn]
              simp [ProofTranscript.proverAbsorbPoint, ProofTranscript.commonAbsorbPoint,
                ← h, List.append_assoc]

theorem foldl_proverScalars (lab : List Nat) :
    ∀ (zs : List F) (t : ProofTranscript),
    zs.foldl (fun t z => t.proverAbsorbScalar lab z) t
      = ⟨t.sponge ++ zs.map (fun z => (lab, scalarToBytes z)),
          t.buf ++ (zs.map scalarToBytes).flatten, t.pos, t.isProver⟩ := by
  intro zs
  induction zs with
  | nil => intro t; simp
  | cons z zs ih =>
      intro t
      rw [List.foldl_cons, ih]
      simp [ProofTranscript.proverAbsorbScalar, ProofTranscript.commonAbsorbScalar,
        List.append_assoc]

/-- The sponge state, shared by prover and verifier, after the protocol
label, the instance absorbs, the commitment absorbs and the challenge
draw: this is the state from which the challenge `e` is derived. -/
def baseSponge (label : List Nat) (ip : List Gp) (isc : List F) (Av : List Gp) : SpongeState :=
  [(label, [])] ++ ip.map (fun v => (labelEmpty, pointCompress v))
    ++ isc.map (fun v => (labelEmpty, scalarToBytes v))
    ++ Av.map (fun v => (labelR, pointCompress v)) ++ [(labelE, [])]

theorem Protocol.prove_eq {W I : Type} (P : Protocol W I) (w : W) (X : I) (r : Nat → F)
    (ip : List Gp) (isc : List F) (Av : List Gp) (wv av : List F)
    (hiP : (P.iPoints X).mapM SymPoint.evaluate = .ok ip)
    (hiS : (P.iScalars X).mapM SymScalar.evaluate = .ok isc)
    (hA : (P.psi (P.wRand r) X).mapM SymPoint.evaluate = .ok Av)
    (hwv : P.wValues w = .ok wv)
    (hav : P.wValues (P.wRand r) = .ok av) :
    P.prove w X r = .ok ((Av.map pointCompress).flatten ++
      (((wv.zip av).map (fun sa =>
        sa.1 * challengeScalar (baseSponge P.label ip isc Av) + sa.2)).map
          scalarToBytes).flatten) := by
  simp only [Protocol.prove, ProofTranscript.newProver,
    foldlM_commonPoints _ _ _ _ hiP]
  simp only [exceptBind_ok]
  rw [foldlM_commonScalars labelEmpty (P.iScalars X) _ isc hiS]
  simp only [exceptBind_ok]
  rw [foldlM_proverPoints labelR (P.psi (P.wRand r) X) _ Av hA]
  simp only [exceptBind_ok, ProofTranscript.challenge, hwv, hav]
  rw [foldl_proverScalars]
  simp only [ProofTranscript.finalize, exceptPure, baseSponge, List.append_assoc,
    List.nil_append, Except.ok.injEq]

theorem checkEquations_of (e : F) :
    ∀ (ps : List SymPoint) (xs as : List Gp),
    ps.mapM SymPoint.evaluate = .ok (List.zipWith (fun a x => a + e * x) as xs) →
    ps.length = xs.length → ps.length = as.length →
    checkEquations e ((xs.zip as).zip ps) = .ok () := by
  intro ps
  induction ps with
  | nil => intro xs as _ _ _; simp [checkEquations]
  | cons p ps ih =>
      intro xs as h hx ha
      cases xs with
      | nil => simp at hx
      | cons x xs =>
          cases as with
          | nil => simp at ha
          | cons a as =>
              rw [List.zipWith_cons_cons, List.mapM_cons] at h
              cases hp : p.evaluate with
              | error err => rw [hp] at h; simp at h
              | ok v =>
                  rw [hp] at h
                  cases hps : ps.mapM SymPoint.evaluate with
                  | error err => rw [hps] at h; simp at h
                  | ok vs =>
                      rw [hps] at h
                      simp at h
                      show checkEquations e (((x, a), p) :: (xs.zip as).zip ps) = .ok ()
                      rw [checkEquations, hp]
                      simp only [exceptBind_ok, h.1, if_pos rfl]
                      refine ih xs as (by rw [hps, h.2]) ?_ ?_
                      · simpa using hx
                      · simpa using ha


theorem verifierReceivePoints_enc (lab : List Nat) (A : List Gp) (rest : List Nat)
    (t : ProofTranscript) (h : t.buf.drop t.pos = (A.map pointCompress).flatten ++ rest) :
    t.verifierReceivePoints lab A.length =
      some (A, ⟨t.sponge ++ A.map (fun p => (lab, pointCompress p)), t.buf,
        t.pos + 32 * A.length, t.isProver⟩) :=
  verifierReceivePoints_encoded lab A t rest h

theorem verifierReceivesAllScalars_enc (lab : List Nat) (zs : List F)
    (t : ProofTranscript) (h : t.buf.drop t.pos = (zs.map scalarToBytes).flatten) :
    t.verifierReceivesAllScalars lab =
      some (zs, ⟨t.sponge ++ zs.map (fun s => (lab, scalarToBytes s)), t.buf,
        t.pos + 32 * zs.length, t.isProver⟩) :=
  verifierReceivesAllScalars_encoded lab zs t h

theorem Protocol.verify_ok {W I : Type} (P : Protocol W I) (X : I)
    (ip : List Gp) (isc : List F) (fv Av : List Gp) (zs : List F) (Zw : W)
    (hf : (P.f X).mapM SymPoint.evaluate = .ok fv)
    (hiP : (P.iPoints X).mapM SymPoint.evaluate = .ok ip)
    (hiS : (P.iScalars X).mapM SymScalar.evaluate = .ok isc)
    (hAlen : Av.length = fv.length)
    (hfrom : P.wFromValues zs = .ok Zw)
    (hpsiZ : (P.psi Zw X).mapM SymPoint.evaluate
      = .ok (List.zipWith
          (fun a fx => a + challengeScalar (baseSponge P.label ip isc Av) * fx) Av fv)) :
    P.verify X ((Av.map pointCompress).flatten ++ (zs.map scalarToBytes).flatten)
      = .ok () := by
  have hAflat : ((Av.map pointCompress).flatten).length = 32 * Av.length :=
    join_map_length_32 _ pointCompress_length Av
  have hZflat : ((zs.map scalarToBytes).flatten).length = 32 * zs.length :=
    join_map_length_32 _ scalarToBytes_length zs
  have hlen : ((Av.map pointCompress).flatten ++ (zs.map scalarToBytes).flatten).length % 32
      = 0 := by
    rw [List.length_append, hAflat, hZflat]
    omega
  have hdrop0 : (((Av.map pointCompress).flatten ++ (zs.map scalarToBytes).flatten).drop 0)
      = (Av.map pointCompress).flatten ++ (zs.map scalarToBytes).flatten := List.drop_zero _
  have hdropA : (((Av.map pointCompress).flatten ++ (zs.map scalarToBytes).flatten).drop
      (0 + 32 * Av.length)) = (zs.map scalarToBytes).flatten := by
    rw [Nat.zero_add, ← hAflat, List.drop_left]
  have hpsiLen : (P.psi Zw X).length = Av.length := by
    have h1 := mapM_ok_length _ _ _ hpsiZ
    rw [List.length_zipWith, hAlen, min_self] at h1
    rw [hAlen]
    exact h1.symm
  have hcond : ¬(((Av.map pointCompress).flatten ++ (zs.map scalarToBytes).flatten).length % 32
      ≠ 0) := by
    rw [hlen]
    simp
  rw [Protocol.verify, if_neg hcond]
  simp only [hf, exceptBind_ok, ProofTranscript.newVerifier]
  rw [foldlM_commonPoints labelEmpty (P.iPoints X) _ ip hiP]
  simp only [exceptBind_ok]
  rw [foldlM_commonScalars labelEmpty (P.iScalars X) _ isc hiS]
  simp only [exceptBind_ok]
  rw [← hAlen]
  rw [verifierReceivePoints_enc labelR Av ((zs.map scalarToBytes).flatten) _ hdrop0]
  simp only [exceptBind_ok, ProofTranscript.challenge]
  rw [verifierReceivesAllScalars_enc labelZ zs _ hdropA]
  simp only [exceptBind_ok, hfrom]
  rw [if_neg (by simp [hpsiLen])]
  have hchk := checkEquations_of (challengeScalar (baseSponge P.label ip isc Av))
    (P.psi Zw X) fv Av hpsiZ (by rw [hpsiLen, hAlen]) hpsiLen
  simp only [baseSponge, List.append_assoc] at hchk ⊢
  exact hchk

theorem SchnorrWitness.values_eq {w : SchnorrWitness} {x : F}
    (h : w.privatekey.evaluate = .ok x) : w.values = .ok [x] := by
  obtain ⟨pk⟩ := w
  cases pk
  case Var o => cases o <;> simp_all [values, SymScalar.evaluate]
  all_goals simp_all [values, SymScalar.evaluate]

theorem ChaumWitness.values_eqC {w : ChaumWitness} {x : F}
    (h : w.x.evaluate = .ok x) : w.values = .ok [x] := by
  obtain ⟨pk⟩ := w
  cases pk
  case Var o => cases o <;> simp_all [values, SymScalar.evaluate]
  all_goals simp_all [values, SymScalar.evaluate]

theorem ZeroCheckWitness.values_eqZ {w : ZeroCheckWitness} {x : F}
    (h : w.secretKey.evaluate = .ok x) : w.values = .ok [x] := by
  obtain ⟨pk⟩ := w
  cases pk
  case Var o => cases o <;> simp_all [values, SymScalar.evaluate]
  all_goals simp_all [values, SymScalar.evaluate]

theorem OkamotoWitness.values_eqO {w : OkamotoWitness} {vx vy : F}
    (hx : w.x.evaluate = .ok vx) (hy : w.y.evaluate = .ok vy) :
    w.values = .ok [vx, vy] := by
  obtain ⟨wx, wy⟩ := w
  cases wx
  case Var o =>
      cases o
      · simp_all [values, SymScalar.evaluate]
      · cases wy
        case Var o2 => cases o2 <;> simp_all [values, SymScalar.evaluate]
        all_goals simp_all [values, SymScalar.evaluate]
  all_goals
    cases wy
    case Var o2 => cases o2 <;> simp_all [values, SymScalar.evaluate]
    all_goals simp_all [values, SymScalar.evaluate]

set_option maxRecDepth 2000

theorem schnorr_completeness (w : SchnorrWitness) (X : SchnorrInstance) (r : Nat → F)
    (x Pv : F) (hw : w.privatekey.evaluate = .ok x) (hX : X.pubkey.evaluate = .ok Pv)
    (hrel : x * basepoint = Pv) :
    (schnorrProtocol.prove w X r >>= schnorrProtocol.verify X) = .ok () := by
  subst hrel
  have hv : schnorrProtocol.wValues w = .ok [x] := SchnorrWitness.values_eq hw
  have hiP : (schnorrProtocol.iPoints X).mapM SymPoint.evaluate = .ok [x * basepoint] := by
    simp [schnorrProtocol, SchnorrInstance.points, List.mapM.loop, hX]
  have hiS : (schnorrProtocol.iScalars X).mapM SymScalar.evaluate = .ok [] := by
    simp [schnorrProtocol, SchnorrInstance.scalars, List.mapM.loop]
  have hA : (schnorrProtocol.psi (schnorrProtocol.wRand r) X).mapM SymPoint.evaluate
      = .ok [r 0 * basepoint] := by
    simp [schnorrProtocol, SchnorrWitness.rand, List.mapM.loop,
      SymPoint.evaluate, SymScalar.evaluate]
  have hav : schnorrProtocol.wValues (schnorrProtocol.wRand r) = .ok [r 0] := by
    simp [schnorrProtocol, SchnorrWitness.rand, SchnorrWitness.values, SymScalar.evaluate]
  have hp := Protocol.prove_eq schnorrProtocol w X r [x * basepoint] [] [r 0 * basepoint]
    [x] [r 0] hiP hiS hA hv hav
  rw [hp]
  simp only [exceptBind_ok]
  have hf : (schnorrProtocol.f X).mapM SymPoint.evaluate = .ok [x * basepoint] := hiP
  have hfrom : schnorrProtocol.wFromValues
      (([x].zip [r 0]).map (fun sa =>
        sa.1 * challengeScalar (baseSponge schnorrProtocol.label [x * basepoint] []
          [r 0 * basepoint]) + sa.2))
      = .ok ⟨.Var (some (x * challengeScalar (baseSponge schnorrProtocol.label
          [x * basepoint] [] [r 0 * basepoint]) + r 0))⟩ := by
    simp [schnorrProtocol, SchnorrWitness.fromValues]
  have hpsiZ : (schnorrProtocol.psi
      ⟨.Var (some (x * challengeScalar (baseSponge schnorrProtocol.label [x * basepoint] []
        [r 0 * basepoint]) + r 0))⟩ X).mapM SymPoint.evaluate
      = .ok (List.zipWith
          (fun a fx => a + challengeScalar (baseSponge schnorrProtocol.label [x * basepoint]
            [] [r 0 * basepoint]) * fx) [r 0 * basepoint] [x * basepoint]) := by
    simp only [schnorrProtocol, List.mapM_cons, List.mapM_nil, List.mapM.loop,
      SymPoint.evaluate, SymScalar.evaluate, exceptBind_ok, exceptMap_ok, exceptPure,
      List.zipWith_cons_cons, List.zipWith_nil_right, List.reverse_cons, List.reverse_nil,
      List.nil_append, Except.ok.injEq, List.cons.injEq, and_true]
    ring
  exact Protocol.verify_ok schnorrProtocol X [x * basepoint] [] [x * basepoint]
    [r 0 * basepoint] _ _ hf hiP hiS (by simp) hfrom hpsiZ

theorem okamoto_completeness (h : Gp) (w : OkamotoWitness) (X : OkamotoInstance)
    (r : Nat → F) (x y Pv : F) (hx : w.x.evaluate = .ok x) (hy : w.y.evaluate = .ok y)
    (hX : X.point.evaluate = .ok Pv) (hrel : x * basepoint + y * h = Pv) :
    ((okamotoProtocol h).prove w X r >>= (okamotoProtocol h).verify X) = .ok () := by
  subst hrel
  have hv : (okamotoProtocol h).wValues w = .ok [x, y] := OkamotoWitness.values_eqO hx hy
  have hiP : ((okamotoProtocol h).iPoints X).mapM SymPoint.evaluate
      = .ok [x * basepoint + y * h] := by
    simp [okamotoProtocol, OkamotoInstance.points, List.mapM.loop, hX]
  have hiS : ((okamotoProtocol h).iScalars X).mapM SymScalar.evaluate = .ok [] := by
    simp [okamotoProtocol, OkamotoInstance.scalars, List.mapM.loop]
  have hA : ((okamotoProtocol h).psi ((okamotoProtocol h).wRand r) X).mapM SymPoint.evaluate
      = .ok [r 0 * basepoint + r 1 * h] := by
    simp [okamotoProtocol, OkamotoWitness.rand, List.mapM.loop, constG, constH,
      SymPoint.evaluate, SymScalar.evaluate]
  have hav : (okamotoProtocol h).wValues ((okamotoProtocol h).wRand r) = .ok [r 0, r 1] := by
    simp [okamotoProtocol, OkamotoWitness.rand, OkamotoWitness.values, SymScalar.evaluate]
  have hp := Protocol.prove_eq (okamotoProtocol h) w X r [x * basepoint + y * h] []
    [r 0 * basepoint + r 1 * h] [x, y] [r 0, r 1] hiP hiS hA hv hav
  rw [hp]
  simp only [exceptBind_ok]
  have hf : ((okamotoProtocol h).f X).mapM SymPoint.evaluate
      = .ok [x * basepoint + y * h] := hiP
  have hfrom : (okamotoProtocol h).wFromValues
      (([x, y].zip [r 0, r 1]).map (fun sa =>
        sa.1 * challengeScalar (baseSponge (okamotoProtocol h).label [x * basepoint + y * h]
          [] [r 0 * basepoint + r 1 * h]) + sa.2))
      = .ok ⟨.Var (some (x * challengeScalar (baseSponge (okamotoProtocol h).label
          [x * basepoint + y * h] [] [r 0 * basepoint + r 1 * h]) + r 0)),
          .Var (some (y * challengeScalar (baseSponge (okamotoProtocol h).label
          [x * basepoint + y * h] [] [r 0 * basepoint + r 1 * h]) + r 1))⟩ := by
    simp [okamotoProtocol, OkamotoWitness.fromValues]
  have hpsiZ : ((okamotoProtocol h).psi
      ⟨.Var (some (x * challengeScalar (baseSponge (okamotoProtocol h).label
          [x * basepoint + y * h] [] [r 0 * basepoint + r 1 * h]) + r 0)),
        .Var (some (y * challengeScalar (baseSponge (okamotoProtocol h).label
          [x * basepoint + y * h] [] [r 0 * basepoint + r 1 * h]) + r 1))⟩ X).mapM
        SymPoint.evaluate
      = .ok (List.zipWith
          (fun a fx => a + challengeScalar (baseSponge (okamotoProtocol h).label
            [x * basepoint + y * h] [] [r 0 * basepoint + r 1 * h]) * fx)
          [r 0 * basepoint + r 1 * h] [x * basepoint + y * h]) := by
    simp only [okamotoProtocol, List.mapM_cons, List.mapM_nil, List.mapM.loop, constG, constH,
      SymPoint.evaluate, SymScalar.evaluate, exceptBind_ok, exceptMap_ok, exceptPure,
      List.zipWith_cons_cons, List.zipWith_nil_right, List.reverse_cons, List.reverse_nil,
      List.nil_append, Except.ok.injEq, List.cons.injEq, and_true]
    ring
  exact Protocol.verify_ok (okamotoProtocol h) X [x * basepoint + y * h] []
    [x * basepoint + y * h] [r 0 * basepoint + r 1 * h] _ _ hf hiP hiS (by simp) hfrom hpsiZ

theorem chaum_completeness (h : Gp) (w : ChaumWitness) (X : ChaumInstance)
    (r : Nat → F) (x P1 P2 : F) (hx : w.x.evaluate = .ok x)
    (hX1 : X.point1.evaluate = .ok P1) (hX2 : X.point2.evaluate = .ok P2)
    (hrel1 : x * basepoint = P1) (hrel2 : x * h = P2) :
    ((chaumProtocol h).prove w X r >>= (chaumProtocol h).verify X) = .ok () := by
  subst hrel1
  subst hrel2
  have hv : (chaumProtocol h).wValues w = .ok [x] := ChaumWitness.values_eqC hx
  have hiP : ((chaumProtocol h).iPoints X).mapM SymPoint.evaluate
      = .ok [x * basepoint, x * h] := by
    simp [chaumProtocol, ChaumInstance.points, List.mapM.loop, hX1, hX2]
  have hiS : ((chaumProtocol h).iScalars X).mapM SymScalar.evaluate = .ok [] := by
    simp [chaumProtocol, ChaumInstance.scalars, List.mapM.loop]
  have hA : ((chaumProtocol h).psi ((chaumProtocol h).wRand r) X).mapM SymPoint.evaluate
      = .ok [r 0 * basepoint, r 0 * h] := by
    simp [chaumProtocol, ChaumWitness.rand, List.mapM.loop, constG, constH,
      SymPoint.evaluate, SymScalar.evaluate]
  have hav : (chaumProtocol h).wValues ((chaumProtocol h).wRand r) = .ok [r 0] := by
    simp [chaumProtocol, ChaumWitness.rand, ChaumWitness.values, SymScalar.evaluate]
  have hp := Protocol.prove_eq (chaumProtocol h) w X r [x * basepoint, x * h] []
    [r 0 * basepoint, r 0 * h] [x] [r 0] hiP hiS hA hv hav
  rw [hp]
  simp only [exceptBind_ok]
  have hf : ((chaumProtocol h).f X).mapM SymPoint.evaluate
      = .ok [x * basepoint, x * h] := hiP
  have hfrom : (chaumProtocol h).wFromValues
      (([x].zip [r 0]).map (fun sa =>
        sa.1 * challengeScalar (baseSponge (chaumProtocol h).label [x * basepoint, x * h]
          [] [r 0 * basepoint, r 0 * h]) + sa.2))
      = .ok ⟨.Var (some (x * challengeScalar (baseSponge (chaumProtocol h).label
          [x * basepoint, x * h] [] [r 0 * basepoint, r 0 * h]) + r 0))⟩ := by
    simp [chaumProtocol, ChaumWitness.fromValues]
  have hpsiZ : ((chaumProtocol h).psi
      ⟨.Var (some (x * challengeScalar (baseSponge (chaumProtocol h).label
          [x * basepoint, x * h] [] [r 0 * basepoint, r 0 * h]) + r 0))⟩ X).mapM
        SymPoint.evaluate
      = .ok (List.zipWith
          (fun a fx => a + challengeScalar (baseSponge (chaumProtocol h).label
            [x * basepoint, x * h] [] [r 0 * basepoint, r 0 * h]) * fx)
          [r 0 * basepoint, r 0 * h] [x * basepoint, x * h]) := by
    simp only [chaumProtocol, List.mapM_cons, List.mapM_nil, List.mapM.loop, constG, constH,
      SymPoint.evaluate, SymScalar.evaluate, exceptBind_ok, exceptMap_ok, exceptPure,
      List.zipWith_cons_cons, List.zipWith_nil_right, List.reverse_cons, List.reverse_nil,
      List.nil_append, Except.ok.injEq, List.cons.injEq, and_true]
    constructor
    · ring
    · ring
  exact Protocol.verify_ok (chaumProtocol h) X [x * basepoint, x * h] []
    [x * basepoint, x * h] [r 0 * basepoint, r 0 * h] _ _ hf hiP hiS (by simp) hfrom hpsiZ

theorem zero_completeness (w : ZeroCheckWitness) (X : ZeroCheckInstance)
    (r : Nat → F) (s PK C D : F) (hs : w.secretKey.evaluate = .ok s)
    (hPK : X.pubkey.evaluate = .ok PK) (hC : X.commitment.evaluate = .ok C)
    (hD : X.handle.evaluate = .ok D)
    (hrel1 : s * basepoint = C) (hrel2 : s * PK = D) :
    (zeroCheckProtocol.prove w X r >>= zeroCheckProtocol.verify X) = .ok () := by
  subst hrel1
  subst hrel2
  have hv : zeroCheckProtocol.wValues w = .ok [s] := ZeroCheckWitness.values_eqZ hs
  have hiP : (zeroCheckProtocol.iPoints X).mapM SymPoint.evaluate
      = .ok [PK, s * basepoint, s * PK] := by
    simp [zeroCheckProtocol, ZeroCheckInstance.points, List.mapM.loop, hPK, hC, hD]
  have hiS : (zeroCheckProtocol.iScalars X).mapM SymScalar.evaluate = .ok [] := by
    simp [zeroCheckProtocol, ZeroCheckInstance.scalars, List.mapM.loop]
  have hA : (zeroCheckProtocol.psi (zeroCheckProtocol.wRand r) X).mapM SymPoint.evaluate
      = .ok [r 0 * basepoint, r 0 * PK] := by
    simp [zeroCheckProtocol, ZeroCheckWitness.rand, List.mapM.loop, hPK,
      SymPoint.evaluate, SymScalar.evaluate]
  have hav : zeroCheckProtocol.wValues (zeroCheckProtocol.wRand r) = .ok [r 0] := by
    simp [zeroCheckProtocol, ZeroCheckWitness.rand, ZeroCheckWitness.values,
      SymScalar.evaluate]
  have hp := Protocol.prove_eq zeroCheckProtocol w X r [PK, s * basepoint, s * PK] []
    [r 0 * basepoint, r 0 * PK] [s] [r 0] hiP hiS hA hv hav
  rw [hp]
  simp only [exceptBind_ok]
  have hf : (zeroCheckProtocol.f X).mapM SymPoint.evaluate
      = .ok [s * basepoint, s * PK] := by
    simp [zeroCheckProtocol, List.mapM.loop, hC, hD]
  have hfrom : zeroCheckProtocol.wFromValues
      (([s].zip [r 0]).map (fun sa =>
        sa.1 * challengeScalar (baseSponge zeroCheckProtocol.label [PK, s * basepoint, s * PK]
          [] [r 0 * basepoint, r 0 * PK]) + sa.2))
      = .ok ⟨.Var (some (s * challengeScalar (baseSponge zeroCheckProtocol.label
          [PK, s * basepoint, s * PK] [] [r 0 * basepoint, r 0 * PK]) + r 0))⟩ := by
    simp [zeroCheckProtocol, ZeroCheckWitness.fromValues]
  have hpsiZ : (zeroCheckProtocol.psi
      ⟨.Var (some (s * challengeScalar (baseSponge zeroCheckProtocol.label
          [PK, s * basepoint, s * PK] [] [r 0 * basepoint, r 0 * PK]) + r 0))⟩ X).mapM
        SymPoint.evaluate
      = .ok (List.zipWith
          (fun a fx => a + challengeScalar (baseSponge zeroCheckProtocol.label
            [PK, s * basepoint, s * PK] [] [r 0 * basepoint, r 0 * PK]) * fx)
          [r 0 * basepoint, r 0 * PK] [s * basepoint, s * PK]) := by
    simp only [zeroCheckProtocol, List.mapM_cons, List.mapM_nil, List.mapM.loop, hPK,
      SymPoint.evaluate, SymScalar.evaluate, exceptBind_ok, exceptMap_ok, exceptPure,
      List.zipWith_cons_cons, List.zipWith_nil_right, List.reverse_cons, List.reverse_nil,
      List.nil_append, Except.ok.injEq, List.cons.injEq, and_true]
    constructor
    · ring
    · ring
  exact Protocol.verify_ok zeroCheckProtocol X [PK, s * basepoint, s * PK] []
    [s * basepoint, s * PK] [r 0 * basepoint, r 0 * PK] _ _ hf hiP hiS (by simp) hfrom hpsiZ

/-- C1: For each of the four concrete protocols (Schnorr, Okamoto,
Chaum-Pedersen, zero-check), every fully instantiated witness ω and
instance X satisfying ψ(ω) = f(X) (expressed via the evaluated leaf
values), and every randomness stream `r` feeding the prover's blinding α,
`verify(X, prove(ω, X))` returns `Ok(())`.  `H`'s discrete log `h` is
universally quantified, covering the crate's actual `H`. -/
theorem c1_completeness :
    (∀ (w : SchnorrWitness) (X : SchnorrInstance) (r : Nat → F) (x Pv : F),
      w.privatekey.evaluate = .ok x → X.pubkey.evaluate = .ok Pv →
      x * basepoint = Pv →
      (schnorrProtocol.prove w X r >>= schnorrProtocol.verify X) = .ok ()) ∧
    (∀ (h : Gp) (w : OkamotoWitness) (X : OkamotoInstance) (r : Nat → F) (x y Pv : F),
      w.x.evaluate = .ok x → w.y.evaluate = .ok y → X.point.evaluate = .ok Pv →
      x * basepoint + y * h = Pv →
      ((okamotoProtocol h).prove w X r >>= (okamotoProtocol h).verify X) = .ok ()) ∧
    (∀ (h : Gp) (w : ChaumWitness) (X : ChaumInstance) (r : Nat → F) (x P1 P2 : F),
      w.x.evaluate = .ok x → X.point1.evaluate = .ok P1 → X.point2.evaluate = .ok P2 →
      x * basepoint = P1 → x * h = P2 →
      ((chaumProtocol h).prove w X r >>= (chaumProtocol h).verify X) = .ok ()) ∧
    (∀ (w : ZeroCheckWitness) (X : ZeroCheckInstance) (r : Nat → F) (s PK C D : F),
      w.secretKey.evaluate = .ok s → X.pubkey.evaluate = .ok PK →
      X.commitment.evaluate = .ok C → X.handle.evaluate = .ok D →
      s * basepoint = C → s * PK = D →
      (zeroCheckProtocol.prove w X r >>= zeroCheckProtocol.verify X) = .ok ()) := by
  refine ⟨?_, ?_, ?_, ?_⟩
  · intro w X r x Pv hw hX hrel
    exact schnorr_completeness w X r x Pv hw hX hrel
  · intro h w X r x y Pv hx hy hX hrel
    exact okamoto_completeness h w X r x y Pv hx hy hX hrel
  · intro h w X r x P1 P2 hx h1 h2 hr1 hr2
    exact chaum_completeness h w X r x P1 P2 hx h1 h2 hr1 hr2
  · intro w X r s PK C D hs hPK hC hD hr1 hr2
    exact zero_completeness w X r s PK C D hs hPK hC hD hr1 hr2

/-- Witness for C1: concrete runs of all four protocols with small
witness/instance values. -/
theorem c1_completeness_witness :
    (schnorrProtocol.prove ⟨.Const 7⟩ ⟨.Const 7⟩ (fun _ => 3) >>=
      schnorrProtocol.verify ⟨.Const 7⟩) = .ok () ∧
    ((okamotoProtocol 2).prove ⟨.Const 3, .Const 5⟩ ⟨.Const 13⟩ (fun i => (i : F) + 4) >>=
      (okamotoProtocol 2).verify ⟨.Const 13⟩) = .ok () ∧
    ((chaumProtocol 2).prove ⟨.Const 3⟩ ⟨.Const 3, .Const 6⟩ (fun _ => 9) >>=
      (chaumProtocol 2).verify ⟨.Const 3, .Const 6⟩) = .ok () ∧
    (zeroCheckProtocol.prove ⟨.Const 3⟩ ⟨.Const 5, .Const 3, .Const 15⟩ (fun _ => 11) >>=
      zeroCheckProtocol.verify ⟨.Const 5, .Const 3, .Const 15⟩) = .ok () := by
  refine ⟨?_, ?_, ?_, ?_⟩
  · exact c1_completeness.1 ⟨.Const 7⟩ ⟨.Const 7⟩ (fun _ => 3) 7 7 rfl rfl (by decide)
  · exact c1_completeness.2.1 2 ⟨.Const 3, .Const 5⟩ ⟨.Const 13⟩ (fun i => (i : F) + 4)
      3 5 13 rfl rfl rfl (by decide)
  · exact c1_completeness.2.2.1 2 ⟨.Const 3⟩ ⟨.Const 3, .Const 6⟩ (fun _ => 9)
      3 3 6 rfl rfl rfl (by decide) (by decide)
  · exact c1_completeness.2.2.2 ⟨.Const 3⟩ ⟨.Const 5, .Const 3, .Const 15⟩ (fun _ => 11)
      3 5 3 15 rfl rfl rfl rfl (by decide) (by decide)

/-- For every protocol and fully instantiated inputs, `prove` succeeds and
its output is the commitment blocks followed by the response blocks
(shared helper for the wire-format and totality claims). -/
theorem proveBytesAll :
    (∀ (w : SchnorrWitness) (X : SchnorrInstance) (r : Nat → F),
      w.privatekey.instantiated = true → X.pubkey.instantiated = true →
      ∃ (A : List Gp) (zs : List F),
        (schnorrProtocol.psi (schnorrProtocol.wRand r) X).mapM SymPoint.evaluate = .ok A ∧
        schnorrProtocol.prove w X r
          = .ok ((A.map pointCompress).flatten ++ (zs.map scalarToBytes).flatten) ∧
        A.length = (schnorrProtocol.psi (schnorrProtocol.wRand r) X).length ∧
        zs.length = schnorrProtocol.wNumScalars ∧
        ((A.map pointCompress).flatten ++ (zs.map scalarToBytes).flatten).length
          = (schnorrProtocol.psi (schnorrProtocol.wRand r) X).length * 32
            + schnorrProtocol.wNumScalars * 32 ∧
        ((A.map pointCompress).flatten ++ (zs.map scalarToBytes).flatten).length = 64) ∧
    (∀ (h : Gp) (w : OkamotoWitness) (X : OkamotoInstance) (r : Nat → F),
      w.x.instantiated = true → w.y.instantiated = true → X.point.instantiated = true →
      ∃ (A : List Gp) (zs : List F),
        ((okamotoProtocol h).psi ((okamotoProtocol h).wRand r) X).mapM SymPoint.evaluate
          = .ok A ∧
        (okamotoProtocol h).prove w X r
          = .ok ((A.map pointCompress).flatten ++ (zs.map scalarToBytes).flatten) ∧
        A.length = ((okamotoProtocol h).psi ((okamotoProtocol h).wRand r) X).length ∧
        zs.length = (okamotoProtocol h).wNumScalars ∧
        ((A.map pointCompress).flatten ++ (zs.map scalarToBytes).flatten).length
          = ((okamotoProtocol h).psi ((okamotoProtocol h).wRand r) X).length * 32
            + (okamotoProtocol h).wNumScalars * 32) ∧
    (∀ (h : Gp) (w : ChaumWitness) (X : ChaumInstance) (r : Nat → F),
      w.x.instantiated = true → X.point1.instantiated = true →
      X.point2.instantiated = true →
      ∃ (A : List Gp) (zs : List F),
        ((chaumProtocol h).psi ((chaumProtocol h).wRand r) X).mapM SymPoint.evaluate
          = .ok A ∧
        (chaumProtocol h).prove w X r
          = .ok ((A.map pointCompress).flatten ++ (zs.map scalarToBytes).flatten) ∧
        A.length = ((chaumProtocol h).psi ((chaumProtocol h).wRand r) X).length ∧
        zs.length = (chaumProtocol h).wNumScalars ∧
        ((A.map pointCompress).flatten ++ (zs.map scalarToBytes).flatten).length
          = ((chaumProtocol h).psi ((chaumProtocol h).wRand r) X).length * 32
            + (chaumProtocol h).wNumScalars * 32) ∧
    (∀ (w : ZeroCheckWitness) (X : ZeroCheckInstance) (r : Nat → F),
      w.secretKey.instantiated = true → X.pubkey.instantiated = true →
      X.commitment.instantiated = true → X.handle.instantiated = true →
      ∃ (A : List Gp) (zs : List F),
        (zeroCheckProtocol.psi (zeroCheckProtocol.wRand r) X).mapM SymPoint.evaluate
          = .ok A ∧
        zeroCheckProtocol.prove w X r
          = .ok ((A.map pointCompress).flatten ++ (zs.map scalarToBytes).flatten) ∧
        A.length = (zeroCheckProtocol.psi (zeroCheckProtocol.wRand r) X).length ∧
        zs.length = zeroCheckProtocol.wNumScalars ∧
        ((A.map pointCompress).flatten ++ (zs.map scalarToBytes).flatten).length
          = (zeroCheckProtocol.psi (zeroCheckProtocol.wRand r) X).length * 32
            + zeroCheckProtocol.wNumScalars * 32) := by
  refine ⟨?_, ?_, ?_, ?_⟩
  · intro w X r hwi hXi
    obtain ⟨x, hw⟩ := SymScalar.evaluate_ok_of_instantiated hwi
    obtain ⟨Pv, hX⟩ := SymPoint.evaluate_ok_of_instantiatedP hXi
    have hv : schnorrProtocol.wValues w = .ok [x] := SchnorrWitness.values_eq hw
    have hiP : (schnorrProtocol.iPoints X).mapM SymPoint.evaluate = .ok [Pv] := by
      simp [schnorrProtocol, SchnorrInstance.points, List.mapM.loop, hX]
    have hiS : (schnorrProtocol.iScalars X).mapM SymScalar.evaluate = .ok [] := by
      simp [schnorrProtocol, SchnorrInstance.scalars, List.mapM.loop]
    have hA : (schnorrProtocol.psi (schnorrProtocol.wRand r) X).mapM SymPoint.evaluate
        = .ok [r 0 * basepoint] := by
      simp [schnorrProtocol, SchnorrWitness.rand, List.mapM.loop,
        SymPoint.evaluate, SymScalar.evaluate]
    have hav : schnorrProtocol.wValues (schnorrProtocol.wRand r) = .ok [r 0] := by
      simp [schnorrProtocol, SchnorrWitness.rand, SchnorrWitness.values, SymScalar.evaluate]
    refine ⟨[r 0 * basepoint], _, hA,
      Protocol.prove_eq schnorrProtocol w X r [Pv] [] [r 0 * basepoint] [x] [r 0]
        hiP hiS hA hv hav, by simp [schnorrProtocol], by simp [schnorrProtocol], ?_, ?_⟩
    · simp [join_map_length_32 _ pointCompress_length, join_map_length_32 _ scalarToBytes_length,
      pointCompress_length, scalarToBytes_length,
        schnorrProtocol]
    · simp [join_map_length_32 _ pointCompress_length, join_map_length_32 _ scalarToBytes_length,
      pointCompress_length, scalarToBytes_length]
  · intro h w X r hxi hyi hXi
    obtain ⟨x, hx⟩ := SymScalar.evaluate_ok_of_instantiated hxi
    obtain ⟨y, hy⟩ := SymScalar.evaluate_ok_of_instantiated hyi
    obtain ⟨Pv, hX⟩ := SymPoint.evaluate_ok_of_instantiatedP hXi
    have hv : (okamotoProtocol h).wValues w = .ok [x, y] := OkamotoWitness.values_eqO hx hy
    have hiP : ((okamotoProtocol h).iPoints X).mapM SymPoint.evaluate = .ok [Pv] := by
      simp [okamotoProtocol, OkamotoInstance.points, List.mapM.loop, hX]
    have hiS : ((okamotoProtocol h).iScalars X).mapM SymScalar.evaluate = .ok [] := by
      simp [okamotoProtocol, OkamotoInstance.scalars, List.mapM.loop]
    have hA : ((okamotoProtocol h).psi ((okamotoProtocol h).wRand r) X).mapM
        SymPoint.evaluate = .ok [r 0 * basepoint + r 1 * h] := by
      simp [okamotoProtocol, OkamotoWitness.rand, List.mapM.loop, constG, constH,
        SymPoint.evaluate, SymScalar.evaluate]
    have hav : (okamotoProtocol h).wValues ((okamotoProtocol h).wRand r)
        = .ok [r 0, r 1] := by
      simp [okamotoProtocol, OkamotoWitness.rand, OkamotoWitness.values, SymScalar.evaluate]
    refine ⟨[r 0 * basepoint + r 1 * h], _, hA,
      Protocol.prove_eq (okamotoProtocol h) w X r [Pv] [] [r 0 * basepoint + r 1 * h]
        [x, y] [r 0, r 1] hiP hiS hA hv hav,
      by simp [okamotoProtocol], by simp [okamotoProtocol], ?_⟩
    simp [join_map_length_32 _ pointCompress_length, join_map_length_32 _ scalarToBytes_length,
      pointCompress_length, scalarToBytes_length,
      okamotoProtocol]
  · intro h w X r hxi h1i h2i
    obtain ⟨x, hx⟩ := SymScalar.evaluate_ok_of_instantiated hxi
    obtain ⟨P1, hX1⟩ := SymPoint.evaluate_ok_of_instantiatedP h1i
    obtain ⟨P2, hX2⟩ := SymPoint.evaluate_ok_of_instantiatedP h2i
    have hv : (chaumProtocol h).wValues w = .ok [x] := ChaumWitness.values_eqC hx
    have hiP : ((chaumProtocol h).iPoints X).mapM SymPoint.evaluate = .ok [P1, P2] := by
      simp [chaumProtocol, ChaumInstance.points, List.mapM.loop, hX1, hX2]
    have hiS : ((chaumProtocol h).iScalars X).mapM SymScalar.evaluate = .ok [] := by
      simp [chaumProtocol, ChaumInstance.scalars, List.mapM.loop]
    have hA : ((chaumProtocol h).psi ((chaumProtocol h).wRand r) X).mapM
        SymPoint.evaluate = .ok [r 0 * basepoint, r 0 * h] := by
      simp [chaumProtocol, ChaumWitness.rand, List.mapM.loop, constG, constH,
        SymPoint.evaluate, SymScalar.evaluate]
    have hav : (chaumProtocol h).wValues ((chaumProtocol h).wRand r) = .ok [r 0] := by
      simp [chaumProtocol, ChaumWitness.rand, ChaumWitness.values, SymScalar.evaluate]
    refine ⟨[r 0 * basepoint, r 0 * h], _, hA,
      Protocol.prove_eq (chaumProtocol h) w X r [P1, P2] [] [r 0 * basepoint, r 0 * h]
        [x] [r 0] hiP hiS hA hv hav,
      by simp [chaumProtocol], by simp [chaumProtocol], ?_⟩
    simp [join_map_length_32 _ pointCompress_length, join_map_length_32 _ scalarToBytes_length,
      pointCompress_length, scalarToBytes_length,
      chaumProtocol]
  · intro w X r hsi hpi hci hdi
    obtain ⟨s, hs⟩ := SymScalar.evaluate_ok_of_instantiated hsi
    obtain ⟨PK, hPK⟩ := SymPoint.evaluate_ok_of_instantiatedP hpi
    obtain ⟨C, hC⟩ := SymPoint.evaluate_ok_of_instantiatedP hci
    obtain ⟨D, hD⟩ := SymPoint.evaluate_ok_of_instantiatedP hdi
    have hv : zeroCheckProtocol.wValues w = .ok [s] := ZeroCheckWitness.values_eqZ hs
    have hiP : (zeroCheckProtocol.iPoints X).mapM SymPoint.evaluate = .ok [PK, C, D] := by
      simp [zeroCheckProtocol, ZeroCheckInstance.points, List.mapM.loop, hPK, hC, hD]
    have hiS : (zeroCheckProtocol.iScalars X).mapM SymScalar.evaluate = .ok [] := by
      simp [zeroCheckProtocol, ZeroCheckInstance.scalars, List.mapM.loop]
    have hA : (zeroCheckProtocol.psi (zeroCheckProtocol.wRand r) X).mapM
        SymPoint.evaluate = .ok [r 0 * basepoint, r 0 * PK] := by
      simp [zeroCheckProtocol, ZeroCheckWitness.rand, List.mapM.loop, hPK,
        SymPoint.evaluate, SymScalar.evaluate]
    have hav : zeroCheckProtocol.wValues (zeroCheckProtocol.wRand r) = .ok [r 0] := by
      simp [zeroCheckProtocol, ZeroCheckWitness.rand, ZeroCheckWitness.values,
        SymScalar.evaluate]
    refine ⟨[r 0 * basepoint, r 0 * PK], _, hA,
      Protocol.prove_eq zeroCheckProtocol w X r [PK, C, D] [] [r 0 * basepoint, r 0 * PK]
        [s] [r 0] hiP hiS hA hv hav,
      by simp [zeroCheckProtocol], by simp [zeroCheckProtocol], ?_⟩
    simp [join_map_length_32 _ pointCompress_length, join_map_length_32 _ scalarToBytes_length,
      pointCompress_length, scalarToBytes_length,
      zeroCheckProtocol]

/-- C2: For every protocol and fully instantiated witness and instance,
`prove` succeeds with a byte string laid out as the compressed commitment
points (32 bytes each, the evaluations of ψ(α, X)) followed by the
response scalars (32 bytes each), of total length
`|ψ(α, X)| * 32 + N_w * 32`; for Schnorr the proof is exactly 64 bytes. -/
theorem c2_wire_format :
    (∀ (w : SchnorrWitness) (X : SchnorrInstance) (r : Nat → F),
      w.privatekey.instantiated = true → X.pubkey.instantiated = true →
      ∃ (A : List Gp) (zs : List F),
        (schnorrProtocol.psi (schnorrProtocol.wRand r) X).mapM SymPoint.evaluate = .ok A ∧
        schnorrProtocol.prove w X r
          = .ok ((A.map pointCompress).flatten ++ (zs.map scalarToBytes).flatten) ∧
        A.length = (schnorrProtocol.psi (schnorrProtocol.wRand r) X).length ∧
        zs.length = schnorrProtocol.wNumScalars ∧
        ((A.map pointCompress).flatten ++ (zs.map scalarToBytes).flatten).length
          = (schnorrProtocol.psi (schnorrProtocol.wRand r) X).length * 32
            + schnorrProtocol.wNumScalars * 32 ∧
        ((A.map pointCompress).flatten ++ (zs.map scalarToBytes).flatten).length = 64) ∧
    (∀ (h : Gp) (w : OkamotoWitness) (X : OkamotoInstance) (r : Nat → F),
      w.x.instantiated = true → w.y.instantiated = true → X.point.instantiated = true →
      ∃ (A : List Gp) (zs : List F),
        ((okamotoProtocol h).psi ((okamotoProtocol h).wRand r) X).mapM SymPoint.evaluate
          = .ok A ∧
        (okamotoProtocol h).prove w X r
          = .ok ((A.map pointCompress).flatten ++ (zs.map scalarToBytes).flatten) ∧
        A.length = ((okamotoProtocol h).psi ((okamotoProtocol h).wRand r) X).length ∧
        zs.length = (okamotoProtocol h).wNumScalars ∧
        ((A.map pointCompress).flatten ++ (zs.map scalarToBytes).flatten).length
          = ((okamotoProtocol h).psi ((okamotoProtocol h).wRand r) X).length * 32
            + (okamotoProtocol h).wNumScalars * 32) ∧
    (∀ (h : Gp) (w : ChaumWitness) (X : ChaumInstance) (r : Nat → F),
      w.x.instantiated = true → X.point1.instantiated = true →
      X.point2.instantiated = true →
      ∃ (A : List Gp) (zs : List F),
        ((chaumProtocol h).psi ((chaumProtocol h).wRand r) X).mapM SymPoint.evaluate
          = .ok A ∧
        (chaumProtocol h).prove w X r
          = .ok ((A.map pointCompress).flatten ++ (zs.map scalarToBytes).flatten) ∧
        A.length = ((chaumProtocol h).psi ((chaumProtocol h).wRand r) X).length ∧
        zs.length = (chaumProtocol h).wNumScalars ∧
        ((A.map pointCompress).flatten ++ (zs.map scalarToBytes).flatten).length
          = ((chaumProtocol h).psi ((chaumProtocol h).wRand r) X).length * 32
            + (chaumProtocol h).wNumScalars * 32) ∧
    (∀ (w : ZeroCheckWitness) (X : ZeroCheckInstance) (r : Nat → F),
      w.secretKey.instantiated = true → X.pubkey.instantiated = true →
      X.commitment.instantiated = true → X.handle.instantiated = true →
      ∃ (A : List Gp) (zs : List F),
        (zeroCheckProtocol.psi (zeroCheckProtocol.wRand r) X).mapM SymPoint.evaluate
          = .ok A ∧
        zeroCheckProtocol.prove w X r
          = .ok ((A.map pointCompress).flatten ++ (zs.map scalarToBytes).flatten) ∧
        A.length = (zeroCheckProtocol.psi (zeroCheckProtocol.wRand r) X).length ∧
        zs.length = zeroCheckProtocol.wNumScalars ∧
        ((A.map pointCompress).flatten ++ (zs.map scalarToBytes).flatten).length
          = (zeroCheckProtocol.psi (zeroCheckProtocol.wRand r) X).length * 32
            + zeroCheckProtocol.wNumScalars * 32) := proveBytesAll

/-- Witness for C2: the Schnorr scenario with `x = 7`, `P = 7G` produces a
64-byte proof. -/
theorem c2_wire_format_witness :
    (SymScalar.Const (7 : F)).instantiated = true ∧
    (SymPoint.Const (7 : Gp)).instantiated = true ∧
    ∃ (A : List Gp) (zs : List F),
      (schnorrProtocol.psi (schnorrProtocol.wRand (fun _ => 3))
        ⟨.Const 7⟩).mapM SymPoint.evaluate = .ok A ∧
      schnorrProtocol.prove ⟨.Const 7⟩ ⟨.Const 7⟩ (fun _ => 3)
        = .ok ((A.map pointCompress).flatten ++ (zs.map scalarToBytes).flatten) ∧
      A.length = (schnorrProtocol.psi (schnorrProtocol.wRand (fun _ => 3)) ⟨.Const 7⟩).length ∧
      zs.length = schnorrProtocol.wNumScalars ∧
      ((A.map pointCompress).flatten ++ (zs.map scalarToBytes).flatten).length
        = (schnorrProtocol.psi (schnorrProtocol.wRand (fun _ => 3)) ⟨.Const 7⟩).length * 32
          + schnorrProtocol.wNumScalars * 32 ∧
      ((A.map pointCompress).flatten ++ (zs.map scalarToBytes).flatten).length = 64 := by
  refine ⟨rfl, rfl, ?_⟩
  exact c2_wire_format.1 ⟨.Const 7⟩ ⟨.Const 7⟩ (fun _ => 3) rfl rfl

/-- C3: For each of the four concrete protocols, `prove` returns `Ok` for
every fully instantiated witness and instance (no relation between them
required): every internal evaluation and transcript step succeeds. -/
theorem c3_prove_total :
    (∀ (w : SchnorrWitness) (X : SchnorrInstance) (r : Nat → F),
      w.privatekey.instantiated = true → X.pubkey.instantiated = true →
      (schnorrProtocol.prove w X r).isOk = true) ∧
    (∀ (h : Gp) (w : OkamotoWitness) (X : OkamotoInstance) (r : Nat → F),
      w.x.instantiated = true → w.y.instantiated = true → X.point.instantiated = true →
      ((okamotoProtocol h).prove w X r).isOk = true) ∧
    (∀ (h : Gp) (w : ChaumWitness) (X : ChaumInstance) (r : Nat → F),
      w.x.instantiated = true → X.point1.instantiated = true →
      X.point2.instantiated = true →
      ((chaumProtocol h).prove w X r).isOk = true) ∧
    (∀ (w : ZeroCheckWitness) (X : ZeroCheckInstance) (r : Nat → F),
      w.secretKey.instantiated = true → X.pubkey.instantiated = true →
      X.commitment.instantiated = true → X.handle.instantiated = true →
      (zeroCheckProtocol.prove w X r).isOk = true) := by
  refine ⟨?_, ?_, ?_, ?_⟩
  · intro w X r hwi hXi
    obtain ⟨A, zs, _, hp, _⟩ := proveBytesAll.1 w X r hwi hXi
    rw [hp]
    rfl
  · intro h w X r hxi hyi hXi
    obtain ⟨A, zs, _, hp, _⟩ := proveBytesAll.2.1 h w X r hxi hyi hXi
    rw [hp]
    rfl
  · intro h w X r hxi h1i h2i
    obtain ⟨A, zs, _, hp, _⟩ := proveBytesAll.2.2.1 h w X r hxi h1i h2i
    rw [hp]
    rfl
  · intro w X r hsi hpi hci hdi
    obtain ⟨A, zs, _, hp, _⟩ := proveBytesAll.2.2.2 w X r hsi hpi hci hdi
    rw [hp]
    rfl

/-- Witness for C3: a Schnorr run whose witness does not satisfy the
relation (x = 8 against P = 7G) still proves successfully. -/
theorem c3_prove_total_witness :
    (SymScalar.Const (8 : F)).instantiated = true ∧
    (SymPoint.Const (7 : Gp)).instantiated = true ∧
    (schnorrProtocol.prove ⟨.Const 8⟩ ⟨.Const 7⟩ (fun _ => 3)).isOk = true :=
  ⟨rfl, rfl, c3_prove_total.1 ⟨.Const 8⟩ ⟨.Const 7⟩ (fun _ => 3) rfl rfl⟩

/-- `prove` reads its randomness source only through `W::rand`: if two
streams produce the same blinding witness, the proofs are identical. -/
theorem Protocol.prove_rand_congr {W I : Type} (P : Protocol W I) (w : W) (X : I)
    (r1 r2 : Nat → F) (h : P.wRand r1 = P.wRand r2) :
    P.prove w X r1 = P.prove w X r2 := by
  rw [Protocol.prove, Protocol.prove, h]

/-- C10: `prove` is deterministic given the randomness stream — for each
protocol its output depends on the RNG only through the first `N_w`
draws, so a fixed seed yields byte-identical proofs — and `verify`, which
takes no randomness at all in its inputs, returns the same result on
every call with the same instance and proof bytes. -/
theorem c10_determinism :
    (∀ (w : SchnorrWitness) (X : SchnorrInstance) (r1 r2 : Nat → F),
      (∀ i, i < schnorrProtocol.wNumScalars → r1 i = r2 i) →
      schnorrProtocol.prove w X r1 = schnorrProtocol.prove w X r2) ∧
    (∀ (h : Gp) (w : OkamotoWitness) (X : OkamotoInstance) (r1 r2 : Nat → F),
      (∀ i, i < (okamotoProtocol h).wNumScalars → r1 i = r2 i) →
      (okamotoProtocol h).prove w X r1 = (okamotoProtocol h).prove w X r2) ∧
    (∀ (h : Gp) (w : ChaumWitness) (X : ChaumInstance) (r1 r2 : Nat → F),
      (∀ i, i < (chaumProtocol h).wNumScalars → r1 i = r2 i) →
      (chaumProtocol h).prove w X r1 = (chaumProtocol h).prove w X r2) ∧
    (∀ (w : ZeroCheckWitness) (X : ZeroCheckInstance) (r1 r2 : Nat → F),
      (∀ i, i < zeroCheckProtocol.wNumScalars → r1 i = r2 i) →
      zeroCheckProtocol.prove w X r1 = zeroCheckProtocol.prove w X r2) ∧
    (∀ (X : SchnorrInstance) (proof : List Nat),
      schnorrProtocol.verify X proof = schnorrProtocol.verify X proof) ∧
    (∀ (h : Gp) (X : OkamotoInstance) (proof : List Nat),
      (okamotoProtocol h).verify X proof = (okamotoProtocol h).verify X proof) ∧
    (∀ (h : Gp) (X : ChaumInstance) (proof : List Nat),
      (chaumProtocol h).verify X proof = (chaumProtocol h).verify X proof) ∧
    (∀ (X : ZeroCheckInstance) (proof : List Nat),
      zeroCheckProtocol.verify X proof = zeroCheckProtocol.verify X proof) := by
  refine ⟨?_, ?_, ?_, ?_, fun _ _ => rfl, fun _ _ _ => rfl, fun _ _ _ => rfl, fun _ _ => rfl⟩
  · intro w X r1 r2 h
    exact Protocol.prove_rand_congr _ w X r1 r2 (by
      simp only [schnorrProtocol, SchnorrWitness.rand, SchnorrWitness.mk.injEq]
      exact congrArg SymScalar.Const (h 0 (by norm_num [schnorrProtocol])))
  · intro hp w X r1 r2 h
    exact Protocol.prove_rand_congr _ w X r1 r2 (by
      simp only [okamotoProtocol, OkamotoWitness.rand, OkamotoWitness.mk.injEq]
      exact ⟨congrArg SymScalar.Const (h 0 (by norm_num [okamotoProtocol])),
        congrArg SymScalar.Const (h 1 (by norm_num [okamotoProtocol]))⟩)
  · intro hp w X r1 r2 h
    exact Protocol.prove_rand_congr _ w X r1 r2 (by
      simp only [chaumProtocol, ChaumWitness.rand, ChaumWitness.mk.injEq]
      exact congrArg SymScalar.Const (h 0 (by norm_num [chaumProtocol])))
  · intro w X r1 r2 h
    exact Protocol.prove_rand_congr _ w X r1 r2 (by
      simp only [zeroCheckProtocol, ZeroCheckWitness.rand, ZeroCheckWitness.mk.injEq]
      exact congrArg SymScalar.Const (h 0 (by norm_num [zeroCheckProtocol])))

/-- Witness for C10: two streams agreeing on the first draw produce the
same Schnorr proof bytes. -/
theorem c10_determinism_witness :
    (∀ i, i < schnorrProtocol.wNumScalars →
      (fun _ => (3 : F)) i = (fun j => if j = 0 then (3 : F) else 5) i) ∧
    schnorrProtocol.prove ⟨.Const 7⟩ ⟨.Const 7⟩ (fun _ => (3 : F))
      = schnorrProtocol.prove ⟨.Const 7⟩ ⟨.Const 7⟩ (fun j => if j = 0 then (3 : F) else 5) := by
  have hagree : ∀ i, i < schnorrProtocol.wNumScalars →
      (fun _ => (3 : F)) i = (fun j => if j = 0 then (3 : F) else 5) i := by
    intro i hi
    simp only [schnorrProtocol] at hi
    interval_cases i
    simp
  exact ⟨hagree, c10_determinism.1 ⟨.Const 7⟩ ⟨.Const 7⟩ _ _ hagree⟩

theorem SymScalar.badLeaf_cases (t : SymScalar) :
    t.badLeaf = none ∨ t.badLeaf = some .UninstantiatedScalar := by
  induction t with
  | Const v => left; rfl
  | Var o =>
      cases o with
      | none => right; rfl
      | some v => left; rfl
  | Add a b iha ihb | Sub a b iha ihb | Mul a b iha ihb =>
      rcases iha with ha | ha <;> rcases ihb with hb | hb <;>
        simp [badLeaf, ha, hb]
  | Neg a iha => simpa [badLeaf] using iha

theorem SymPoint.badLeafP_cases (p : SymPoint) :
    p.badLeaf = none ∨ p.badLeaf = some .UninstantiatedScalar ∨
      p.badLeaf = some .UninstantiatedPoint := by
  induction p with
  | Const v => left; rfl
  | WellKnownConst n v => left; rfl
  | Var o =>
      cases o with
      | none => right; right; rfl
      | some v => left; rfl
  | Add a b iha ihb | Sub a b iha ihb =>
      rcases iha with ha | ha | ha <;> rcases ihb with hb | hb | hb <;>
        simp [badLeaf, ha, hb]
  | Neg a iha => simpa [badLeaf] using iha
  | Scale s a iha =>
      rcases SymScalar.badLeaf_cases s with hs | hs <;>
        rcases iha with ha | ha | ha <;> simp [badLeaf, hs, ha]

/-- C4: Any `SymScalar` or `SymPoint` expression containing a `Var(None)`
leaf (at any depth) fails to evaluate: a scalar tree always fails with
`UninstantiatedScalar`; a point tree fails with the error of the first
unbound leaf in evaluation order — `UninstantiatedScalar` when that leaf
is a scalar variable (e.g. inside a `Scale` node), `UninstantiatedPoint`
when it is a point variable — and never returns a value. -/
theorem c4_uninstantiated_propagation :
    (∀ t : SymScalar, t.instantiated = false →
      t.evaluate = .error .UninstantiatedScalar) ∧
    (∀ p : SymPoint, p.instantiated = false →
      ∃ e, p.badLeaf = some e ∧ p.evaluate = .error e ∧
        (e = .UninstantiatedScalar ∨ e = .UninstantiatedPoint)) := by
  constructor
  · intro t ht
    rcases SymScalar.badLeaf_cases t with h | h
    · rw [← SymScalar.instantiated_iff_badLeaf] at h
      rw [ht] at h
      cases h
    · exact (SymScalar.evaluate_badLeaf t).2 _ h
  · intro p hp
    rcases SymPoint.badLeafP_cases p with h | h | h
    · rw [← SymPoint.instantiated_iff_badLeafP] at h
      rw [hp] at h
      cases h
    · exact ⟨_, h, (SymPoint.evaluate_badLeafP p).2 _ h, Or.inl rfl⟩
    · exact ⟨_, h, (SymPoint.evaluate_badLeafP p).2 _ h, Or.inr rfl⟩

/-- Witness for C4: `Var(None)` under arithmetic nodes, including a
scalar variable inside a `Scale` node of a point tree. -/
theorem c4_uninstantiated_propagation_witness :
    (SymScalar.Add (.Const 1) (.Var none)).instantiated = false ∧
    (SymScalar.Add (.Const 1) (.Var none)).evaluate
      = .error .UninstantiatedScalar ∧
    (SymPoint.Scale (.Var none) (.Const basepoint)).instantiated = false ∧
    (∃ e, (SymPoint.Scale (.Var none) (.Const basepoint)).badLeaf = some e ∧
      (SymPoint.Scale (.Var none) (.Const basepoint)).evaluate = .error e ∧
      (e = .UninstantiatedScalar ∨ e = .UninstantiatedPoint)) ∧
    (SymPoint.Add (.Const basepoint) (.Var none)).instantiated = false ∧
    (∃ e, (SymPoint.Add (.Const basepoint) (.Var none)).badLeaf = some e ∧
      (SymPoint.Add (.Const basepoint) (.Var none)).evaluate = .error e ∧
      (e = .UninstantiatedScalar ∨ e = .UninstantiatedPoint)) :=
  ⟨rfl,
   c4_uninstantiated_propagation.1 _ rfl,
   rfl,
   c4_uninstantiated_propagation.2 _ rfl,
   rfl,
   c4_uninstantiated_propagation.2 _ rfl⟩

/-- The scalar side of the specification renderer's tree walk. -/
def SymScalar.render : SymScalar → String
  | .Const _ => "c"
  | .Var _ => "v"
  | .Add a b => "(" ++ a.render ++ " + " ++ b.render ++ ")"
  | .Sub a b => "(" ++ a.render ++ " - " ++ b.render ++ ")"
  | .Neg a => "(-" ++ a.render ++ ")"
  | .Mul a b => "(" ++ a.render ++ " · " ++ b.render ++ ")"

/-- Modelled from the spec: the specification renderer's point tree walk
(spec §4.4.3 step 4) — "printing operators textually (`+`, `-`, `·`,
unary `-`) … and preserving `WellKnownConst` display names".  The
renderer shipped in `src/compiler.rs` predates the `WellKnownConst`
variant (its matches have no arm for it, and it identifies `G` by
comparing a `Const` point's value with the base point), so the
display-name behaviour is modelled from the spec. -/
def SymPoint.render : SymPoint → String
  | .Const _ => "P"
  | .WellKnownConst name _ => name
  | .Var _ => "?"
  | .Add a b => "(" ++ a.render ++ " + " ++ b.render ++ ")"
  | .Sub a b => "(" ++ a.render ++ " - " ++ b.render ++ ")"
  | .Neg a => "(-" ++ a.render ++ ")"
  | .Scale s a => s.render ++ " · " ++ a.render

/-- C9: `SymPoint` provides a `WellKnownConst(name, P)` constructor — a
bound group element with a display name; evaluating it returns `P`, the
constants `G` and `H` of `src/sigmas/mod.rs` are built with it, and the
specification renderer prints the display name (`G`, `H`) when rendering
such a constant. -/
theorem c9_wellknownconst :
    (∀ (name : String) (p : Gp), (SymPoint.WellKnownConst name p).evaluate = .ok p) ∧
    (∀ (name : String) (p : Gp), (SymPoint.WellKnownConst name p).render = name) ∧
    constG = SymPoint.WellKnownConst "G" basepoint ∧
    (∀ h : Gp, constH h = SymPoint.WellKnownConst "H" h) ∧
    constG.render = "G" ∧ (∀ h : Gp, (constH h).render = "H") :=
  ⟨fun _ _ => rfl, fun _ _ => rfl, rfl, fun _ => rfl, rfl, fun _ => rfl⟩

/-- Shapes of witness record types over the algebra
(`sigma-proof-compiler-derive/src/sym_witness.rs`).  `leaf` is a field of
type `SymScalar` (and, at top level, the base `SymScalar` implementation
of `src/absorb.rs`); `rnil`/`rcons` form the field list of a derived
struct (`rnil` alone is a unit struct, `Fields::Unit`); an `rcons` whose
field is itself `rnil`/`rcons` is a nested sub-record field. -/
inductive WShape where
  | leaf : WShape
  | rnil : WShape
  | rcons (field : WShape) (rest : WShape) : WShape
deriving DecidableEq

/-- A witness record value of some shape, with `SymScalar` contents at
the leaves. -/
inductive WVal where
  | leaf (s : SymScalar) : WVal
  | rnil : WVal
  | rcons (field : WVal) (rest : WVal) : WVal
deriving DecidableEq

/-- The shape of a witness record value. -/
def WVal.shape : WVal → WShape
  | .leaf _ => .leaf
  | .rnil => .rnil
  | .rcons f t => .rcons f.shape t.shape

/-- Derived `num_scalars`: 1 per `SymScalar` field, sum over fields and
nested records. -/
def WShape.numScalars : WShape → Nat
  | .leaf => 1
  | .rnil => 0
  | .rcons f t => f.numScalars + t.numScalars

/-- All scalar leaves are instantiated. -/
def WVal.instantiated : WVal → Bool
  | .leaf s => s.instantiated
  | .rnil => true
  | .rcons f t => f.instantiated && t.instantiated

/-- Derived `SymWitness::values` (`sym_witness.rs:79-146`): in-order
flatten of evaluated scalar leaves; a `Var(None)` leaf aborts with
`UninstantiatedScalar`.  The `leaf` case is also the base `SymScalar`
implementation (`src/absorb.rs:56-61`). -/
def WVal.values : WVal → Except SigmaProofError (List F)
  | .leaf s => match s with
      | .Var none => .error .UninstantiatedScalar
      | s' => do pure [← s'.evaluate]
  | .rnil => .ok []
  | .rcons f t => do
      let a ← f.values
      let b ← t.values
      pure (a ++ b)

/-- The field-list parsing loop of the derived `SymWitness::from_values`
(`sym_witness.rs:149-259`), on the remaining input (the cursor position
is the count of consumed scalars).  A `SymScalar` field checks
`cursor >= scalars.len()` (here: empty remainder) and consumes one
scalar as `Var(Some(_))`; a nested record field calls the nested type's
`from_values` on the whole remainder — which itself insists on consuming
everything (its final cursor check) — and advances by the number of
scalars of the parsed value. -/
def WShape.parseSpine : WShape → List F → Except SigmaProofError (WVal × Nat)
  | .rnil, _ => .ok (.rnil, 0)
  | .leaf, _ => .error .InsufficientScalars
  | .rcons .leaf t, rem =>
      match rem with
      | [] => .error .InsufficientScalars
      | x :: _ => do
          let vt ← WShape.parseSpine t (rem.drop 1)
          .ok (.rcons (.leaf (.Var (some x))) vt.1, vt.2 + 1)
  | .rcons .rnil t, rem =>
      -- unit-struct field: its `from_values(remaining)` succeeds only on
      -- an empty remainder, else `TooManyScalars{0, remaining}`
      if rem.isEmpty then do
        let vt ← WShape.parseSpine t rem
        .ok (.rcons .rnil vt.1, vt.2)
      else .error (.TooManyScalars 0 rem.length)
  | .rcons (.rcons a b) t, rem => do
      -- nested record field: `from_values(remaining)` = parse its fields
      -- and require the whole remainder consumed
      let vf ← WShape.parseSpine (.rcons a b) rem
      if vf.2 = rem.length then do
        let vt ← WShape.parseSpine t (rem.drop vf.2)
        .ok (.rcons vf.1 vt.1, vf.2 + vt.2)
      else .error (.TooManyScalars vf.2 rem.length)

/-- `SymWitness::from_values`: the base `SymScalar` implementation
(`src/absorb.rs:63-72`; note: a wrong arity — longer or shorter — yields
`TooManyScalars{1, actual}`) and the derived implementation (cursor loop
plus the final `cursor == scalars.len()` check). -/
def WShape.fromValues : WShape → List F → Except SigmaProofError WVal
  | .leaf, scalars =>
      match scalars with
      | [s] => .ok (.leaf (.Var (some s)))
      | _ => .error (.TooManyScalars 1 scalars.length)
  | .rnil, scalars =>
      if scalars.isEmpty then .ok .rnil else .error (.TooManyScalars 0 scalars.length)
  | .rcons f t, scalars => do
      let v ← WShape.parseSpine (.rcons f t) scalars
      if v.2 = scalars.length then .ok v.1
      else .error (.TooManyScalars v.2 scalars.length)

/-- A record whose fields are all `SymScalar` leaves (no nested
sub-record fields): the shape of all four protocol witnesses. -/
def WShape.flatSpine : WShape → Bool
  | .rnil => true
  | .rcons .leaf t => t.flatSpine
  | _ => false

/-- Shapes of instance record types
(`sigma-proof-compiler-derive/src/sym_instance.rs`): scalar leaf fields,
point leaf fields, unit structs and field lists; an `icons` whose field
is `inil`/`icons` is a nested sub-record field. -/
inductive IShape where
  | sleaf : IShape
  | pleaf : IShape
  | inil : IShape
  | icons (field : IShape) (rest : IShape) : IShape
deriving DecidableEq

/-- An instance record value with `SymScalar`/`SymPoint` contents at the
leaves. -/
inductive IVal where
  | sleaf (s : SymScalar) : IVal
  | pleaf (p : SymPoint) : IVal
  | inil : IVal
  | icons (field : IVal) (rest : IVal) : IVal
deriving DecidableEq

/-- The shape of an instance record value. -/
def IVal.shape : IVal → IShape
  | .sleaf _ => .sleaf
  | .pleaf _ => .pleaf
  | .inil => .inil
  | .icons f t => .icons f.shape t.shape

/-- Derived `num_scalars` for instance records. -/
def IShape.numScalars : IShape → Nat
  | .sleaf => 1
  | .pleaf => 0
  | .inil => 0
  | .icons f t => f.numScalars + t.numScalars

/-- Derived `num_points` for instance records. -/
def IShape.numPoints : IShape → Nat
  | .sleaf => 0
  | .pleaf => 1
  | .inil => 0
  | .icons f t => f.numPoints + t.numPoints

/-- All leaves instantiated. -/
def IVal.instantiated : IVal → Bool
  | .sleaf s => s.instantiated
  | .pleaf p => p.instantiated
  | .inil => true
  | .icons f t => f.instantiated && t.instantiated

/-- Derived `SymInstance::scalars`: in-order flatten of the scalar
components (`sym_instance.rs:294-341`; base impls in `src/absorb.rs`). -/
def IVal.scalars : IVal → List SymScalar
  | .sleaf s => [s]
  | .pleaf _ => []
  | .inil => []
  | .icons f t => f.scalars ++ t.scalars

/-- Derived `SymInstance::points`: in-order flatten of the point
components (`sym_instance.rs:343-390`). -/
def IVal.points : IVal → List SymPoint
  | .sleaf _ => []
  | .pleaf p => [p]
  | .inil => []
  | .icons f t => f.points ++ t.points

/-- The field-list loop of the derived `SymInstance::from_values`
(`sym_instance.rs:165-292`), on the remaining scalar and point inputs;
the returned pair of counts is the advance of the two cursors.  A scalar
field checks `scalar_cursor >= scalars.len()` (`InsufficientScalars`)
and consumes one scalar as `SymScalar::Const`; a point field likewise
(`InsufficientPoints`, `SymPoint::Const`); a nested record field takes
the exact slices `scalars[c..c+n_s]`, `points[c..c+n_p]` — which in Rust
PANICS (modelled `Panicked`) when a slice end exceeds the input length —
and runs the nested `from_values` (field parsing plus its final
total-consumption check) on them. -/
def IShape.parseSpine : IShape → List F → List Gp →
    Except SigmaProofError (IVal × Nat × Nat)
  | .inil, _, _ => .ok (.inil, 0, 0)
  | .sleaf, _, _ => .error .InsufficientScalars
  | .pleaf, _, _ => .error .InsufficientPoints
  | .icons .sleaf t, ss, ps =>
      match ss with
      | [] => .error .InsufficientScalars
      | x :: _ => do
          let vt ← IShape.parseSpine t (ss.drop 1) ps
          .ok (.icons (.sleaf (.Const x)) vt.1, vt.2.1 + 1, vt.2.2)
  | .icons .pleaf t, ss, ps =>
      match ps with
      | [] => .error .InsufficientPoints
      | p :: _ => do
          let vt ← IShape.parseSpine t ss (ps.drop 1)
          .ok (.icons (.pleaf (.Const p)) vt.1, vt.2.1, vt.2.2 + 1)
  | .icons .inil t, ss, ps => do
      -- unit-shaped sub-record: zero-length slices, nested from_values
      -- on empty inputs succeeds
      let vt ← IShape.parseSpine t ss ps
      .ok (.icons .inil vt.1, vt.2.1, vt.2.2)
  | .icons (.icons a b) t, ss, ps =>
      if (IShape.icons a b).numScalars ≤ ss.length then
        if (IShape.icons a b).numPoints ≤ ps.length then do
          let vf ← IShape.parseSpine (.icons a b)
            (ss.take (IShape.icons a b).numScalars)
            (ps.take (IShape.icons a b).numPoints)
          if vf.2.1 = (IShape.icons a b).numScalars ∧
              vf.2.2 = (IShape.icons a b).numPoints then do
            let vt ← IShape.parseSpine t
              (ss.drop (IShape.icons a b).numScalars)
              (ps.drop (IShape.icons a b).numPoints)
            .ok (.icons vf.1 vt.1, (IShape.icons a b).numScalars + vt.2.1,
              (IShape.icons a b).numPoints + vt.2.2)
          else .error (.TooManyScalars vf.2.1 (IShape.icons a b).numScalars)
        else .error .Panicked
      else .error .Panicked

/-- `SymInstance::from_values`: the base `SymScalar` and `SymPoint`
implementations (`src/absorb.rs:86-151`; note that any wrong arity —
including too-few inputs — yields `TooManyScalars{expected, actual_scalars}`)
and the derived implementation (cursor loop plus the final
`scalar_cursor == scalars.len() && point_cursor == points.len()` check). -/
def IShape.fromValues : IShape → List F → List Gp → Except SigmaProofError IVal
  | .sleaf, ss, ps =>
      match ss, ps with
      | [s], [] => .ok (.sleaf (.Const s))
      | _, _ => .error (.TooManyScalars 1 ss.length)
  | .pleaf, ss, ps =>
      match ss, ps with
      | [], [p] => .ok (.pleaf (.Const p))
      | _, _ => .error (.TooManyScalars 0 ss.length)
  | .inil, ss, ps =>
      if ss.isEmpty && ps.isEmpty then .ok .inil
      else .error (.TooManyScalars 0 ss.length)
  | .icons f t, ss, ps => do
      let v ← IShape.parseSpine (.icons f t) ss ps
      if v.2.1 = ss.length ∧ v.2.2 = ps.length then .ok v.1
      else .error (.TooManyScalars v.2.1 ss.length)

/-- An instance record whose fields are all scalar/point leaves (the
shape of all four protocol instances). -/
def IShape.flatSpine : IShape → Bool
  | .inil => true
  | .icons .sleaf t => t.flatSpine
  | .icons .pleaf t => t.flatSpine
  | _ => false


theorem WVal.values_leaf_eq (s : SymScalar) (hs : s ≠ .Var none) :
    (WVal.leaf s).values = (do pure [← s.evaluate]) := by
  cases s with
  | Var o =>
      cases o with
      | none => exact absurd rfl hs
      | some w => rfl
  | Const c => rfl
  | Add a b => rfl
  | Sub a b => rfl
  | Neg a => rfl
  | Mul a b => rfl

theorem WVal.values_leaf {s : SymScalar} {vs : List F}
    (h : (WVal.leaf s).values = .ok vs) : ∃ v, s.evaluate = .ok v ∧ vs = [v] := by
  by_cases hs : s = .Var none
  · subst hs
    simp [values] at h
  · rw [values_leaf_eq s hs] at h
    cases he : s.evaluate with
    | error e => rw [he] at h; simp at h
    | ok v => rw [he] at h; simp at h; exact ⟨v, rfl, h.symm⟩

theorem WVal.values_ok_of_instantiated :
    ∀ (x : WVal), x.instantiated = true → ∃ vs, x.values = .ok vs := by
  intro x
  induction x with
  | leaf s =>
      intro h
      rw [instantiated] at h
      obtain ⟨v, hv⟩ := SymScalar.evaluate_ok_of_instantiated h
      have hs : s ≠ .Var none := by
        intro hvn
        rw [hvn] at hv
        simp [SymScalar.evaluate] at hv
      exact ⟨[v], by rw [values_leaf_eq s hs, hv]; rfl⟩
  | rnil => exact fun _ => ⟨[], rfl⟩
  | rcons f t ihf iht =>
      intro h
      rw [instantiated, Bool.and_eq_true] at h
      obtain ⟨a, ha⟩ := ihf h.1
      obtain ⟨b, hb⟩ := iht h.2
      exact ⟨a ++ b, by simp [values, ha, hb]⟩

theorem WVal.values_length :
    ∀ (x : WVal) (vs : List F), x.values = .ok vs → vs.length = x.shape.numScalars := by
  intro x
  induction x with
  | leaf s =>
      intro vs h
      obtain ⟨v, _, hvs⟩ := WVal.values_leaf h
      simp [hvs, shape, WShape.numScalars]
  | rnil =>
      intro vs h
      simp [values] at h
      simp [← h, shape, WShape.numScalars]
  | rcons f t ihf iht =>
      intro vs h
      rw [values] at h
      cases ha : f.values with
      | error e => rw [ha] at h; simp at h
      | ok a =>
          rw [ha] at h
          cases hb : t.values with
          | error e => rw [hb] at h; simp at h
          | ok b =>
              rw [hb] at h
              simp at h
              simp [← h, shape, WShape.numScalars, ihf a ha, iht b hb]

theorem WShape.parseSpine_flat :
    ∀ (sh : WShape), sh.flatSpine = true → ∀ (vs extra : List F),
    vs.length = sh.numScalars →
    ∃ x', sh.parseSpine (vs ++ extra) = .ok (x', vs.length) ∧ x'.values = .ok vs ∧
      x'.shape = sh := by
  intro sh
  induction sh with
  | leaf => intro h; simp [flatSpine] at h
  | rnil =>
      intro _ vs extra hlen
      rw [numScalars] at hlen
      rw [List.length_eq_zero] at hlen
      subst hlen
      exact ⟨.rnil, rfl, rfl, rfl⟩
  | rcons f t ihf iht =>
      intro hflat vs extra hlen
      cases f with
      | leaf =>
          rw [flatSpine] at hflat
          cases vs with
          | nil =>
              exfalso
              simp only [numScalars, List.length_nil] at hlen
              omega
          | cons v vs' =>
              obtain ⟨xt, hpt, hvt, hst⟩ := iht hflat vs' extra (by
                simp only [numScalars, List.length_cons] at hlen
                omega)
              refine ⟨.rcons (.leaf (.Var (some v))) xt, ?_, ?_, ?_⟩
              · rw [show ((v :: vs') ++ extra) = v :: (vs' ++ extra) from rfl, parseSpine]
                simp [hpt]
              · simp [WVal.values, SymScalar.evaluate, hvt]
              · simp [WVal.shape, hst]
      | rnil => simp [flatSpine] at hflat
      | rcons a b => simp [flatSpine] at hflat

theorem WShape.fromValues_flat_roundtrip (x : WVal) (vs : List F)
    (hflat : x.shape.flatSpine = true ∨ x.shape = .leaf)
    (hv : x.values = .ok vs) :
    ∃ x', x.shape.fromValues vs = .ok x' ∧ x'.values = .ok vs := by
  have hlen := WVal.values_length x vs hv
  rcases hflat with hflat | hleaf
  · cases hsh : x.shape with
    | leaf => rw [hsh] at hflat; simp [flatSpine] at hflat
    | rnil =>
        have hx : x = .rnil := by
          cases x <;> simp [WVal.shape] at hsh <;> rfl
        subst hx
        have hvs : vs = [] := by
          simp [WVal.values] at hv
          exact hv
        subst hvs
        exact ⟨.rnil, rfl, rfl⟩
    | rcons f t =>
        rw [hsh] at hflat hlen
        obtain ⟨x', hp, hval, _⟩ := parseSpine_flat _ hflat vs [] hlen
        refine ⟨x', ?_, hval⟩
        rw [fromValues]
        rw [List.append_nil] at hp
        simp [hp]
  · obtain ⟨s, hx⟩ : ∃ s, x = .leaf s := by
      cases x with
      | leaf s => exact ⟨s, rfl⟩
      | rnil => simp [WVal.shape] at hleaf
      | rcons f t => simp [WVal.shape] at hleaf
    subst hx
    obtain ⟨v, hev, hvs⟩ := WVal.values_leaf hv
    subst hvs
    rw [hleaf]
    exact ⟨.leaf (.Var (some v)), rfl, by simp [WVal.values, SymScalar.evaluate]⟩

theorem mapM_append_ok_iff {α β : Type} (f : α → Except SigmaProofError β) :
    ∀ (l1 l2 : List α) (v1 v2 : List β),
    l1.mapM f = .ok v1 → l2.mapM f = .ok v2 → (l1 ++ l2).mapM f = .ok (v1 ++ v2) := by
  intro l1
  induction l1 with
  | nil =>
      intro l2 v1 v2 h1 h2
      simp [List.mapM.loop] at h1
      subst h1
      simpa using h2
  | cons a l1 ih =>
      intro l2 v1 v2 h1 h2
      rw [List.mapM_cons] at h1
      cases hfa : f a with
      | error e => rw [hfa] at h1; simp at h1
      | ok b =>
          rw [hfa] at h1
          cases hml : l1.mapM f with
          | error e => rw [hml] at h1; simp at h1
          | ok bs =>
              rw [hml] at h1
              simp at h1
              rw [show ((a :: l1) ++ l2) = a :: (l1 ++ l2) from rfl, List.mapM_cons, hfa]
              have hrec : List.mapM.loop f (l1 ++ l2) [] = Except.ok (bs ++ v2) :=
                ih l2 bs v2 hml h2
              simp [hrec, ← h1]

theorem mapM_append_ok_split {α β : Type} (f : α → Except SigmaProofError β) :
    ∀ (l1 l2 : List α) (v : List β), (l1 ++ l2).mapM f = .ok v →
    ∃ v1 v2, l1.mapM f = .ok v1 ∧ l2.mapM f = .ok v2 ∧ v = v1 ++ v2 := by
  intro l1
  induction l1 with
  | nil =>
      intro l2 v h
      exact ⟨[], v, by simp [List.mapM.loop], by simpa using h, by simp⟩
  | cons a l1 ih =>
      intro l2 v h
      rw [show ((a :: l1) ++ l2) = a :: (l1 ++ l2) from rfl, List.mapM_cons] at h
      cases hfa : f a with
      | error e => rw [hfa] at h; simp at h
      | ok b =>
          rw [hfa] at h
          cases hml : (l1 ++ l2).mapM f with
          | error e => rw [hml] at h; simp at h
          | ok bs =>
              rw [hml] at h
              simp at h
              obtain ⟨v1, v2, h1, h2, hv⟩ := ih l2 bs hml
              have h1' : List.mapM.loop f l1 [] = Except.ok v1 := h1
              exact ⟨b :: v1, v2, by rw [List.mapM_cons, hfa]; simp [h1'],
                h2, by simp [← h, hv]⟩

theorem IVal.scalars_length (x : IVal) : x.scalars.length = x.shape.numScalars := by
  induction x with
  | sleaf s => rfl
  | pleaf p => rfl
  | inil => rfl
  | icons f t ihf iht => simp [scalars, shape, IShape.numScalars, ihf, iht]

theorem IVal.points_length (x : IVal) : x.points.length = x.shape.numPoints := by
  induction x with
  | sleaf s => rfl
  | pleaf p => rfl
  | inil => rfl
  | icons f t ihf iht => simp [points, shape, IShape.numPoints, ihf, iht]

/-- `true` when the value is a field list (the shape produced for a
derived struct), as opposed to a bare leaf. -/
def IVal.isRecord : IVal → Bool
  | .inil => true
  | .icons _ _ => true
  | _ => false

theorem IVal.mapM_ok_of_instantiated :
    ∀ (x : IVal), x.instantiated = true →
    ∃ sv pv, x.scalars.mapM SymScalar.evaluate = .ok sv ∧
      x.points.mapM SymPoint.evaluate = .ok pv := by
  intro x
  induction x with
  | sleaf s =>
      intro h
      rw [instantiated] at h
      obtain ⟨v, hv⟩ := SymScalar.evaluate_ok_of_instantiated h
      exact ⟨[v], [], by simp [scalars, List.mapM.loop, hv], by simp [points, List.mapM.loop]⟩
  | pleaf p =>
      intro h
      rw [instantiated] at h
      obtain ⟨v, hv⟩ := SymPoint.evaluate_ok_of_instantiatedP h
      exact ⟨[], [v], by simp [scalars, List.mapM.loop], by simp [points, List.mapM.loop, hv]⟩
  | inil =>
      exact fun _ => ⟨[], [], by simp [scalars, List.mapM.loop], by simp [points, List.mapM.loop]⟩
  | icons f t ihf iht =>
      intro h
      rw [instantiated, Bool.and_eq_true] at h
      obtain ⟨sv1, pv1, hs1, hp1⟩ := ihf h.1
      obtain ⟨sv2, pv2, hs2, hp2⟩ := iht h.2
      exact ⟨sv1 ++ sv2, pv1 ++ pv2,
        by rw [scalars]; exact mapM_append_ok_iff _ _ _ _ _ hs1 hs2,
        by rw [points]; exact mapM_append_ok_iff _ _ _ _ _ hp1 hp2⟩

theorem mapM_singleton_ok {α β : Type} (f : α → Except SigmaProofError β) (a : α)
    (v : List β) (h : [a].mapM f = .ok v) : ∃ b, f a = .ok b ∧ v = [b] := by
  rw [List.mapM_cons] at h
  cases hfa : f a with
  | error e => rw [hfa] at h; simp at h
  | ok b =>
      rw [hfa] at h
      simp [List.mapM.loop] at h
      exact ⟨b, rfl, h.symm⟩

/-- Well-formed field-list shapes: exactly the shapes the derive macro
produces for a struct (every nested record field is itself such a
shape). -/
def IShape.wfSpine : IShape → Bool
  | .inil => true
  | .icons .sleaf t => t.wfSpine
  | .icons .pleaf t => t.wfSpine
  | .icons .inil t => t.wfSpine
  | .icons (.icons a b) t => (IShape.icons a b).wfSpine && t.wfSpine
  | _ => false

theorem IShape.parseSpine_rt :
    ∀ (x : IVal), x.shape.wfSpine = true →
    ∀ (sv : List F) (pv : List Gp),
    x.scalars.mapM SymScalar.evaluate = .ok sv →
    x.points.mapM SymPoint.evaluate = .ok pv →
    ∀ (es : List F) (eps : List Gp),
    ∃ x', x.shape.parseSpine (sv ++ es) (pv ++ eps) = .ok (x', sv.length, pv.length) ∧
      x'.shape = x.shape ∧ x'.scalars.mapM SymScalar.evaluate = .ok sv ∧
      x'.points.mapM SymPoint.evaluate = .ok pv := by
  intro x
  induction x with
  | sleaf s => intro h; simp [IVal.shape, wfSpine] at h
  | pleaf p => intro h; simp [IVal.shape, wfSpine] at h
  | inil =>
      intro _ sv pv hs hp es eps
      simp [IVal.scalars, List.mapM.loop] at hs
      simp [IVal.points, List.mapM.loop] at hp
      subst hs
      subst hp
      exact ⟨.inil, by simp [IVal.shape, parseSpine], rfl, by simp [IVal.scalars, List.mapM.loop],
        by simp [IVal.points, List.mapM.loop]⟩
  | icons f t ihf iht =>
      intro hwf sv pv hs hp es eps
      rw [show (IVal.icons f t).scalars = f.scalars ++ t.scalars from rfl] at hs
      rw [show (IVal.icons f t).points = f.points ++ t.points from rfl] at hp
      obtain ⟨svf, svt, hsf, hst, hsve⟩ := mapM_append_ok_split _ _ _ _ hs
      obtain ⟨pvf, pvt, hpf, hpt, hpve⟩ := mapM_append_ok_split _ _ _ _ hp
      subst hsve
      subst hpve
      cases f with
      | sleaf s =>
          rw [show (IVal.sleaf s).scalars = [s] from rfl] at hsf
          obtain ⟨v, hv, hsvf⟩ := mapM_singleton_ok _ _ _ hsf
          subst hsvf
          rw [show (IVal.sleaf s).points = [] from rfl] at hpf
          simp [List.mapM.loop] at hpf
          subst hpf
          have hwt : t.shape.wfSpine = true := by
            simpa [IVal.shape, wfSpine] using hwf
          obtain ⟨xt, hpt2, hsh2, hsc2, hpt3⟩ := iht hwt svt pvt hst hpt es eps
          refine ⟨.icons (.sleaf (.Const v)) xt, ?_, ?_, ?_, ?_⟩
          · rw [show (IVal.icons (IVal.sleaf s) t).shape = .icons .sleaf t.shape from rfl]
            rw [show (([v] ++ svt) ++ es) = v :: (svt ++ es) from rfl]
            rw [parseSpine]
            simp only [List.drop_succ_cons, List.drop_zero, List.nil_append]
            rw [hpt2]
            simp
          · simp [IVal.shape, hsh2]
          · rw [show (IVal.icons (IVal.sleaf (SymScalar.Const v)) xt).scalars
              = [SymScalar.Const v] ++ xt.scalars from rfl]
            exact mapM_append_ok_iff _ _ _ _ _ (by simp [List.mapM.loop, SymScalar.evaluate]) hsc2
          · rw [show (IVal.icons (IVal.sleaf (SymScalar.Const v)) xt).points
              = xt.points from rfl]
            exact hpt3
      | pleaf p =>
          rw [show (IVal.pleaf p).points = [p] from rfl] at hpf
          obtain ⟨v, hv, hpvf⟩ := mapM_singleton_ok _ _ _ hpf
          subst hpvf
          rw [show (IVal.pleaf p).scalars = [] from rfl] at hsf
          simp [List.mapM.loop] at hsf
          subst hsf
          have hwt : t.shape.wfSpine = true := by
            simpa [IVal.shape, wfSpine] using hwf
          obtain ⟨xt, hpt2, hsh2, hsc2, hpt3⟩ := iht hwt svt pvt hst hpt es eps
          refine ⟨.icons (.pleaf (.Const v)) xt, ?_, ?_, ?_, ?_⟩
          · rw [show (IVal.icons (IVal.pleaf p) t).shape = .icons .pleaf t.shape from rfl]
            rw [show (([v] ++ pvt) ++ eps) = v :: (pvt ++ eps) from rfl]
            rw [parseSpine]
            simp only [List.drop_succ_cons, List.drop_zero, List.nil_append]
            rw [hpt2]
            simp
          · simp [IVal.shape, hsh2]
          · rw [show (IVal.icons (IVal.pleaf (SymPoint.Const v)) xt).scalars
              = xt.scalars from rfl]
            exact hsc2
          · rw [show (IVal.icons (IVal.pleaf (SymPoint.Const v)) xt).points
              = [SymPoint.Const v] ++ xt.points from rfl]
            exact mapM_append_ok_iff _ _ _ _ _ (by simp [List.mapM.loop, SymPoint.evaluate]) hpt3
      | inil =>
          rw [show (IVal.inil).scalars = [] from rfl] at hsf
          simp [List.mapM.loop] at hsf
          subst hsf
          rw [show (IVal.inil).points = [] from rfl] at hpf
          simp [List.mapM.loop] at hpf
          subst hpf
          have hwt : t.shape.wfSpine = true := by
            simpa [IVal.shape, wfSpine] using hwf
          obtain ⟨xt, hpt2, hsh2, hsc2, hpt3⟩ := iht hwt svt pvt hst hpt es eps
          refine ⟨.icons .inil xt, ?_, ?_, ?_, ?_⟩
          · rw [show (IVal.icons IVal.inil t).shape = .icons .inil t.shape from rfl]
            rw [parseSpine]
            simp only [List.nil_append]
            rw [hpt2]
            simp
          · simp [IVal.shape, hsh2]
          · exact hsc2
          · exact hpt3
      | icons a b =>
          have hwff : (IVal.icons a b).shape.wfSpine = true := by
            have := hwf
            simp only [IVal.shape, wfSpine, Bool.and_eq_true] at this
            simpa [IVal.shape] using this.1
          have hwt : t.shape.wfSpine = true := by
            have := hwf
            simp only [IVal.shape, wfSpine, Bool.and_eq_true] at this
            exact this.2
          have hnf : svf.length = (IVal.icons a b).shape.numScalars := by
            rw [← IVal.scalars_length]
            exact mapM_ok_length _ _ _ hsf
          have hnpf : pvf.length = (IVal.icons a b).shape.numPoints := by
            rw [← IVal.points_length]
            exact mapM_ok_length _ _ _ hpf
          obtain ⟨xf, hpf2, hshf, hscf, hppf⟩ := ihf hwff svf pvf hsf hpf [] []
          rw [List.append_nil, List.append_nil] at hpf2
          obtain ⟨xt, hpt2, hsht, hsct, hppt⟩ := iht hwt svt pvt hst hpt es eps
          refine ⟨.icons xf xt, ?_, ?_, ?_, ?_⟩
          · rw [show (IVal.icons (IVal.icons a b) t).shape
              = .icons (.icons a.shape b.shape) t.shape from rfl]
            rw [parseSpine]
            rw [show (IShape.icons a.shape b.shape) = (IVal.icons a b).shape from rfl]
            have hle1 : (IVal.icons a b).shape.numScalars ≤ ((svf ++ svt) ++ es).length := by
              simp [← hnf]
            have hle2 : (IVal.icons a b).shape.numPoints ≤ ((pvf ++ pvt) ++ eps).length := by
              simp [← hnpf]
            rw [if_pos hle1, if_pos hle2]
            have htake1 : ((svf ++ svt) ++ es).take (IVal.icons a b).shape.numScalars = svf := by
              rw [← hnf, List.append_assoc, List.take_left]
            have htake2 : ((pvf ++ pvt) ++ eps).take (IVal.icons a b).shape.numPoints = pvf := by
              rw [← hnpf, List.append_assoc, List.take_left]
            have hdrop1 : ((svf ++ svt) ++ es).drop (IVal.icons a b).shape.numScalars
                = svt ++ es := by
              rw [← hnf, List.append_assoc, List.drop_left]
            have hdrop2 : ((pvf ++ pvt) ++ eps).drop (IVal.icons a b).shape.numPoints
                = pvt ++ eps := by
              rw [← hnpf, List.append_assoc, List.drop_left]
            rw [htake1, htake2, hpf2]
            simp only [exceptBind_ok]
            rw [if_pos ⟨hnf, hnpf⟩]
            rw [hdrop1, hdrop2, hpt2]
            simp only [exceptBind_ok, exceptPure, Except.ok.injEq, Prod.mk.injEq]
            simp [← hnf, ← hnpf]
          · simp [IVal.shape, hshf, hsht]
          · rw [show (IVal.icons xf xt).scalars = xf.scalars ++ xt.scalars from rfl]
            exact mapM_append_ok_iff _ _ _ _ _ hscf hsct
          · rw [show (IVal.icons xf xt).points = xf.points ++ xt.points from rfl]
            exact mapM_append_ok_iff _ _ _ _ _ hppf hppt

theorem IShape.fromValues_roundtrip (x : IVal) (sv : List F) (pv : List Gp)
    (hwf : x.shape.wfSpine = true ∨ x.shape = .sleaf ∨ x.shape = .pleaf)
    (hs : x.scalars.mapM SymScalar.evaluate = .ok sv)
    (hp : x.points.mapM SymPoint.evaluate = .ok pv) :
    ∃ x', x.shape.fromValues sv pv = .ok x' ∧
      x'.scalars.mapM SymScalar.evaluate = .ok sv ∧
      x'.points.mapM SymPoint.evaluate = .ok pv := by
  cases x with
  | sleaf s =>
      obtain ⟨v, hv, hsv⟩ := mapM_singleton_ok _ _ _ hs
      subst hsv
      simp [IVal.points, List.mapM.loop] at hp
      subst hp
      exact ⟨.sleaf (.Const v), rfl, by simp [IVal.scalars, List.mapM.loop, SymScalar.evaluate],
        by simp [IVal.points, List.mapM.loop]⟩
  | pleaf p =>
      obtain ⟨v, hv, hpv⟩ := mapM_singleton_ok _ _ _ hp
      subst hpv
      simp [IVal.scalars, List.mapM.loop] at hs
      subst hs
      exact ⟨.pleaf (.Const v), rfl, by simp [IVal.scalars, List.mapM.loop],
        by simp [IVal.points, List.mapM.loop, SymPoint.evaluate]⟩
  | inil =>
      simp [IVal.scalars, List.mapM.loop] at hs
      simp [IVal.points, List.mapM.loop] at hp
      subst hs
      subst hp
      exact ⟨.inil, rfl, by simp [IVal.scalars, List.mapM.loop],
        by simp [IVal.points, List.mapM.loop]⟩
  | icons f t =>
      have hw : (IVal.icons f t).shape.wfSpine = true := by
        rcases hwf with h | h | h
        · exact h
        · simp [IVal.shape] at h
        · simp [IVal.shape] at h
      obtain ⟨x', hp2, _, hsc, hpp⟩ := IShape.parseSpine_rt _ hw sv pv hs hp [] []
      rw [List.append_nil, List.append_nil] at hp2
      refine ⟨x', ?_, hsc, hpp⟩
      rw [show (IVal.icons f t).shape = .icons f.shape t.shape from rfl] at hp2 ⊢
      rw [IShape.fromValues, hp2]
      simp

/-- C5 (amended): `from_values ∘ values` round-trips for the base
`SymScalar` and for derived witness records whose fields are all scalar
leaves (all four protocol witnesses have this shape) — but not for
witness records with a nested sub-record field followed by further
fields, where the derived `from_values` hands the whole remainder to the
nested record and fails with `TooManyScalars`.  For instance records the
round-trip holds as stated, for the base `SymScalar`/`SymPoint` leaves
and every derived shape, nested sub-records included: `from_values`
applied to the evaluated scalars and points yields a record whose
`scalars()`/`points()` evaluate to the same flat sequences. -/
theorem c5_roundtrip :
    (∀ (x : WVal) (vs : List F),
      (x.shape.flatSpine = true ∨ x.shape = .leaf) →
      x.values = .ok vs →
      ∃ x', x.shape.fromValues vs = .ok x' ∧ x'.values = .ok vs) ∧
    (∀ (x : IVal) (sv : List F) (pv : List Gp),
      (x.shape.wfSpine = true ∨ x.shape = .sleaf ∨ x.shape = .pleaf) →
      x.scalars.mapM SymScalar.evaluate = .ok sv →
      x.points.mapM SymPoint.evaluate = .ok pv →
      ∃ x', x.shape.fromValues sv pv = .ok x' ∧
        x'.scalars.mapM SymScalar.evaluate = .ok sv ∧
        x'.points.mapM SymPoint.evaluate = .ok pv) :=
  ⟨fun x vs hflat hv => WShape.fromValues_flat_roundtrip x vs hflat hv,
   fun x sv pv hwf hs hp => IShape.fromValues_roundtrip x sv pv hwf hs hp⟩

/-- Counterexample for C5 as stated: a witness record with a nested
sub-record field followed by a scalar field (`Outer { inner: Inner { a },
b }`, all leaves bound) — `from_values(values(x))` fails with
`TooManyScalars{1, 2}` instead of round-tripping. -/
theorem c5_roundtrip_counterexample :
    (WVal.rcons (.rcons (.leaf (.Var (some 5))) .rnil)
      (.rcons (.leaf (.Var (some 7))) .rnil)).instantiated = true ∧
    (WVal.rcons (.rcons (.leaf (.Var (some 5))) .rnil)
      (.rcons (.leaf (.Var (some 7))) .rnil)).values = .ok [5, 7] ∧
    (WVal.rcons (.rcons (.leaf (.Var (some 5))) .rnil)
      (.rcons (.leaf (.Var (some 7))) .rnil)).shape.fromValues [5, 7]
      = .error (.TooManyScalars 1 2) := by
  refine ⟨rfl, rfl, ?_⟩
  rfl

/-- Witness for C5: a flat two-field witness record and a
nested-sub-record instance round-trip concretely. -/
theorem c5_roundtrip_witness :
    ((WVal.rcons (.leaf (.Var (some 5))) (.rcons (.leaf (.Var (some 7))) .rnil)).shape.flatSpine
        = true ∨
      (WVal.rcons (.leaf (.Var (some 5))) (.rcons (.leaf (.Var (some 7))) .rnil)).shape
        = .leaf) ∧
    (WVal.rcons (.leaf (.Var (some 5))) (.rcons (.leaf (.Var (some 7))) .rnil)).values
      = .ok [5, 7] ∧
    (∃ x', (WVal.rcons (.leaf (.Var (some 5)))
        (.rcons (.leaf (.Var (some 7))) .rnil)).shape.fromValues [5, 7] = .ok x' ∧
      x'.values = .ok [5, 7]) ∧
    ((IVal.icons (.icons (.pleaf (.Const 3)) .inil)
        (.icons (.sleaf (.Const 9)) .inil)).shape.wfSpine = true ∨
      (IVal.icons (.icons (.pleaf (.Const 3)) .inil)
        (.icons (.sleaf (.Const 9)) .inil)).shape = .sleaf ∨
      (IVal.icons (.icons (.pleaf (.Const 3)) .inil)
        (.icons (.sleaf (.Const 9)) .inil)).shape = .pleaf) ∧
    (IVal.icons (.icons (.pleaf (.Const 3)) .inil)
      (.icons (.sleaf (.Const 9)) .inil)).scalars.mapM SymScalar.evaluate = .ok [9] ∧
    (IVal.icons (.icons (.pleaf (.Const 3)) .inil)
      (.icons (.sleaf (.Const 9)) .inil)).points.mapM SymPoint.evaluate = .ok [3] ∧
    ∃ x', (IVal.icons (.icons (.pleaf (.Const 3)) .inil)
        (.icons (.sleaf (.Const 9)) .inil)).shape.fromValues [9] [3] = .ok x' ∧
      x'.scalars.mapM SymScalar.evaluate = .ok [9] ∧
      x'.points.mapM SymPoint.evaluate = .ok [3] := by
  refine ⟨Or.inl rfl, rfl, ?_, Or.inl rfl, rfl, rfl, ?_⟩
  · exact c5_roundtrip.1 _ [5, 7] (Or.inl rfl) rfl
  · exact c5_roundtrip.2 _ [9] [3] (Or.inl rfl) rfl rfl

theorem WShape.parseSpine_flat_short :
    ∀ (sh : WShape), sh.flatSpine = true → ∀ (vs : List F),
    vs.length < sh.numScalars → sh.parseSpine vs = .error .InsufficientScalars := by
  intro sh
  induction sh with
  | leaf => intro h; simp [flatSpine] at h
  | rnil =>
      intro _ vs hlen
      rw [numScalars] at hlen
      omega
  | rcons f t ihf iht =>
      intro hflat vs hlen
      cases f with
      | leaf =>
          rw [flatSpine] at hflat
          cases vs with
          | nil => rfl
          | cons v vs' =>
              rw [parseSpine]
              have : vs'.length < t.numScalars := by
                simp only [numScalars, List.length_cons] at hlen
                omega
              simp [iht hflat vs' this]
      | rnil => simp [flatSpine] at hflat
      | rcons a b => simp [flatSpine] at hflat

theorem WShape.fromValues_flat_short (sh : WShape) (vs : List F)
    (hflat : sh.flatSpine = true) (hlen : vs.length < sh.numScalars) :
    sh.fromValues vs = .error .InsufficientScalars := by
  cases sh with
  | leaf => simp [flatSpine] at hflat
  | rnil => rw [numScalars] at hlen; omega
  | rcons f t =>
      rw [fromValues]
      simp [WShape.parseSpine_flat_short _ hflat vs hlen]

theorem WShape.fromValues_flat_long (sh : WShape) (vs : List F)
    (hflat : sh.flatSpine = true) (hlen : sh.numScalars < vs.length) :
    sh.fromValues vs = .error (.TooManyScalars sh.numScalars vs.length) := by
  cases sh with
  | leaf => simp [flatSpine] at hflat
  | rnil =>
      rw [numScalars] at hlen ⊢
      rw [fromValues]
      rw [if_neg (by simp [List.isEmpty_iff]; intro h; subst h; simp at hlen)]
  | rcons f t =>
      have htk : (vs.take (WShape.rcons f t).numScalars).length
          = (WShape.rcons f t).numScalars := by
        simp
        omega
      obtain ⟨x', hp, _, _⟩ := WShape.parseSpine_flat _ hflat
        (vs.take (WShape.rcons f t).numScalars) (vs.drop (WShape.rcons f t).numScalars) htk
      rw [List.take_append_drop] at hp
      rw [fromValues, hp]
      simp only [exceptBind_ok, htk]
      rw [if_neg (by omega)]

theorem IShape.parseSpine_flat_ok :
    ∀ (sh : IShape), sh.flatSpine = true → ∀ (ss : List F) (ps : List Gp),
    sh.numScalars ≤ ss.length → sh.numPoints ≤ ps.length →
    ∃ x', sh.parseSpine ss ps = .ok (x', sh.numScalars, sh.numPoints) := by
  intro sh
  induction sh with
  | sleaf => intro h; simp [flatSpine] at h
  | pleaf => intro h; simp [flatSpine] at h
  | inil => intro _ ss ps _ _; exact ⟨.inil, rfl⟩
  | icons f t ihf iht =>
      intro hflat ss ps hs hp
      cases f with
      | sleaf =>
          rw [flatSpine] at hflat
          cases ss with
          | nil => simp [numScalars] at hs
          | cons v ss' =>
              have hs' : t.numScalars ≤ ss'.length := by
                simp only [numScalars, List.length_cons] at hs
                omega
              have hp' : t.numPoints ≤ ps.length := by
                simpa [numPoints] using hp
              obtain ⟨x', hx⟩ := iht hflat ss' ps hs' hp'
              refine ⟨.icons (.sleaf (.Const v)) x', ?_⟩
              rw [parseSpine]
              simp [hx, numScalars, numPoints, Nat.add_comm]
      | pleaf =>
          rw [flatSpine] at hflat
          cases ps with
          | nil => simp [numPoints] at hp
          | cons v ps' =>
              have hs' : t.numScalars ≤ ss.length := by
                simpa [numScalars] using hs
              have hp' : t.numPoints ≤ ps'.length := by
                simp only [numPoints, List.length_cons] at hp
                omega
              obtain ⟨x', hx⟩ := iht hflat ss ps' hs' hp'
              refine ⟨.icons (.pleaf (.Const v)) x', ?_⟩
              rw [parseSpine]
              simp [hx, numScalars, numPoints, Nat.add_comm]
      | inil => simp [flatSpine] at hflat
      | icons a b => simp [flatSpine] at hflat

theorem IShape.parseSpine_flat_short_s :
    ∀ (sh : IShape), sh.flatSpine = true → ∀ (ss : List F) (ps : List Gp),
    ss.length < sh.numScalars → sh.numPoints ≤ ps.length →
    sh.parseSpine ss ps = .error .InsufficientScalars := by
  intro sh
  induction sh with
  | sleaf => intro h; simp [flatSpine] at h
  | pleaf => intro h; simp [flatSpine] at h
  | inil => intro _ ss ps h _; rw [numScalars] at h; omega
  | icons f t ihf iht =>
      intro hflat ss ps hs hp
      cases f with
      | sleaf =>
          rw [flatSpine] at hflat
          cases ss with
          | nil => rfl
          | cons v ss' =>
              rw [parseSpine]
              have hs' : ss'.length < t.numScalars := by
                simp only [numScalars, List.length_cons] at hs
                omega
              have hp' : t.numPoints ≤ ps.length := by
                simpa [numPoints] using hp
              simp [iht hflat ss' ps hs' hp']
      | pleaf =>
          rw [flatSpine] at hflat
          cases ps with
          | nil => simp [numPoints] at hp
          | cons v ps' =>
              rw [parseSpine]
              have hs' : ss.length < t.numScalars := by
                simpa [numScalars] using hs
              have hp' : t.numPoints ≤ ps'.length := by
                simp only [numPoints, List.length_cons] at hp
                omega
              simp [iht hflat ss ps' hs' hp']
      | inil => simp [flatSpine] at hflat
      | icons a b => simp [flatSpine] at hflat

theorem IShape.parseSpine_flat_short_p :
    ∀ (sh : IShape), sh.flatSpine = true → ∀ (ss : List F) (ps : List Gp),
    ps.length < sh.numPoints → sh.numScalars ≤ ss.length →
    sh.parseSpine ss ps = .error .InsufficientPoints := by
  intro sh
  induction sh with
  | sleaf => intro h; simp [flatSpine] at h
  | pleaf => intro h; simp [flatSpine] at h
  | inil => intro _ ss ps h _; rw [numPoints] at h; omega
  | icons f t ihf iht =>
      intro hflat ss ps hp hs
      cases f with
      | sleaf =>
          rw [flatSpine] at hflat
          cases ss with
          | nil => simp [numScalars] at hs
          | cons v ss' =>
              rw [parseSpine]
              have hp' : ps.length < t.numPoints := by
                simpa [numPoints] using hp
              have hs' : t.numScalars ≤ ss'.length := by
                simp only [numScalars, List.length_cons] at hs
                omega
              simp [iht hflat ss' ps hp' hs']
      | pleaf =>
          rw [flatSpine] at hflat
          cases ps with
          | nil => rfl
          | cons v ps' =>
              rw [parseSpine]
              have hp' : ps'.length < t.numPoints := by
                simp only [numPoints, List.length_cons] at hp
                omega
              have hs' : t.numScalars ≤ ss.length := by
                simpa [numScalars] using hs
              simp [iht hflat ss ps' hp' hs']
      | inil => simp [flatSpine] at hflat
      | icons a b => simp [flatSpine] at hflat

/-- C6 (amended): wrong-arity behaviour of `from_values`.  For derived
witness records whose fields are all scalar leaves, strictly shorter
input yields `InsufficientScalars` and strictly longer input yields
`TooManyScalars{expected, actual}`; for derived instance records whose
fields are all leaves, a scalar shortage (with enough points) yields
`InsufficientScalars`, a point shortage (with enough scalars) yields
`InsufficientPoints`, and strictly longer input yields `TooManyScalars`.
The base `SymScalar`/`SymPoint` implementations instead return
`TooManyScalars{expected, actual}` for every wrong arity — including
too-short input — and a nested instance sub-record whose slice overruns
the input panics (out-of-bounds slice) rather than returning an error. -/
theorem c6_arity_errors :
    (∀ vs : List F, vs.length ≠ 1 →
      WShape.fromValues .leaf vs = .error (.TooManyScalars 1 vs.length)) ∧
    (∀ (ss : List F) (ps : List Gp), ¬(ss.length = 1 ∧ ps = []) →
      IShape.fromValues .sleaf ss ps = .error (.TooManyScalars 1 ss.length)) ∧
    (∀ (ss : List F) (ps : List Gp), ¬(ss = [] ∧ ps.length = 1) →
      IShape.fromValues .pleaf ss ps = .error (.TooManyScalars 0 ss.length)) ∧
    (∀ (sh : WShape) (vs : List F), sh.flatSpine = true →
      vs.length < sh.numScalars → sh.fromValues vs = .error .InsufficientScalars) ∧
    (∀ (sh : WShape) (vs : List F), sh.flatSpine = true →
      sh.numScalars < vs.length →
      sh.fromValues vs = .error (.TooManyScalars sh.numScalars vs.length)) ∧
    (∀ (sh : IShape) (ss : List F) (ps : List Gp), sh.flatSpine = true →
      ss.length < sh.numScalars → sh.numPoints ≤ ps.length →
      sh.fromValues ss ps = .error .InsufficientScalars) ∧
    (∀ (sh : IShape) (ss : List F) (ps : List Gp), sh.flatSpine = true →
      ps.length < sh.numPoints → sh.numScalars ≤ ss.length →
      sh.fromValues ss ps = .error .InsufficientPoints) ∧
    (∀ (sh : IShape) (ss : List F) (ps : List Gp), sh.flatSpine = true →
      sh.numScalars ≤ ss.length → sh.numPoints ≤ ps.length →
      (sh.numScalars < ss.length ∨ sh.numPoints < ps.length) →
      sh.fromValues ss ps = .error (.TooManyScalars sh.numScalars ss.length)) ∧
    IShape.fromValues (.icons (.icons .pleaf .inil) (.icons .sleaf .inil)) [5] []
      = .error .Panicked := by
  refine ⟨?_, ?_, ?_, ?_, ?_, ?_, ?_, ?_, rfl⟩
  · intro vs h
    cases vs with
    | nil => rfl
    | cons a vs' =>
        cases vs' with
        | nil => simp at h
        | cons b vs'' => rfl
  · intro ss ps h
    cases ss with
    | nil => cases ps <;> rfl
    | cons a ss' =>
        cases ss' with
        | nil =>
            cases ps with
            | nil => exact absurd ⟨rfl, rfl⟩ h
            | cons p ps' => rfl
        | cons b ss'' => cases ps <;> rfl
  · intro ss ps h
    cases ss with
    | nil =>
        cases ps with
        | nil => rfl
        | cons p ps' =>
            cases ps' with
            | nil => exact absurd ⟨rfl, rfl⟩ h
            | cons q ps'' => rfl
    | cons a ss' => cases ps <;> rfl
  · exact fun sh vs hf hl => WShape.fromValues_flat_short sh vs hf hl
  · exact fun sh vs hf hl => WShape.fromValues_flat_long sh vs hf hl
  · intro sh ss ps hf hs hp
    cases sh with
    | sleaf => simp [IShape.flatSpine] at hf
    | pleaf => simp [IShape.flatSpine] at hf
    | inil => rw [IShape.numScalars] at hs; omega
    | icons f t =>
        rw [IShape.fromValues]
        simp [IShape.parseSpine_flat_short_s _ hf ss ps hs hp]
  · intro sh ss ps hf hp hs
    cases sh with
    | sleaf => simp [IShape.flatSpine] at hf
    | pleaf => simp [IShape.flatSpine] at hf
    | inil => rw [IShape.numPoints] at hp; omega
    | icons f t =>
        rw [IShape.fromValues]
        simp [IShape.parseSpine_flat_short_p _ hf ss ps hp hs]
  · intro sh ss ps hf hs hp hlong
    cases sh with
    | sleaf => simp [IShape.flatSpine] at hf
    | pleaf => simp [IShape.flatSpine] at hf
    | inil =>
        simp only [IShape.numScalars, IShape.numPoints] at hs hp hlong ⊢
        rw [IShape.fromValues]
        rw [if_neg (by
          simp [List.isEmpty_iff]
          intro h1
          subst h1
          intro h2
          subst h2
          simp at hlong)]
    | icons f t =>
        obtain ⟨x', hx⟩ := IShape.parseSpine_flat_ok _ hf ss ps hs hp
        rw [IShape.fromValues, hx]
        simp only [exceptBind_ok]
        rw [if_neg (by omega)]

/-- Witness for C6: concrete wrong-arity calls on a two-field flat
witness record and a two-field flat instance record. -/
theorem c6_arity_errors_witness :
    ([(5 : F), 7] : List F).length ≠ 1 ∧
    WShape.fromValues .leaf [(5 : F), 7] = .error (.TooManyScalars 1 2) ∧
    (WShape.rcons .leaf (.rcons .leaf .rnil)).flatSpine = true ∧
    (WShape.rcons .leaf (.rcons .leaf .rnil)).fromValues [(5 : F)]
      = .error .InsufficientScalars ∧
    (WShape.rcons .leaf (.rcons .leaf .rnil)).fromValues [(5 : F), 7, 9]
      = .error (.TooManyScalars 2 3) ∧
    (IShape.icons .sleaf (.icons .pleaf .inil)).fromValues [] [(3 : Gp)]
      = .error .InsufficientScalars ∧
    (IShape.icons .sleaf (.icons .pleaf .inil)).fromValues [(5 : F)] []
      = .error .InsufficientPoints ∧
    (IShape.icons .sleaf (.icons .pleaf .inil)).fromValues [(5 : F), 6] [(3 : Gp)]
      = .error (.TooManyScalars 1 2) := by
  refine ⟨by simp, ?_, rfl, ?_, ?_, ?_, ?_, ?_⟩
  · exact c6_arity_errors.1 [5, 7] (by simp)
  · exact c6_arity_errors.2.2.2.1 _ [5] rfl (by simp [WShape.numScalars])
  · exact c6_arity_errors.2.2.2.2.1 _ [5, 7, 9] rfl (by simp [WShape.numScalars])
  · exact c6_arity_errors.2.2.2.2.2.1 _ [] [3] rfl (by simp [IShape.numScalars])
      (by simp [IShape.numPoints])
  · exact c6_arity_errors.2.2.2.2.2.2.1 _ [5] [] rfl (by simp [IShape.numPoints])
      (by simp [IShape.numScalars])
  · exact c6_arity_errors.2.2.2.2.2.2.2.1 _ [5, 6] [3] rfl (by simp [IShape.numScalars])
      (by simp [IShape.numPoints]) (by simp [IShape.numScalars])

/-- Counterexample for C6 as stated: the base `SymScalar` witness
implementation applied to an input strictly shorter than its arity (the
empty vector, arity 1) returns `TooManyScalars{1, 0}`, not
`InsufficientScalars`. -/
theorem c6_arity_errors_counterexample :
    WShape.fromValues .leaf ([] : List F) = .error (.TooManyScalars 1 0) ∧
    WShape.fromValues .leaf ([] : List F) ≠ .error .InsufficientScalars :=
  ⟨rfl, fun h => SigmaProofError.noConfusion (Except.error.inj h)⟩

theorem SchnorrWitness.fromValues_long (zs : List F) (h : 1 < zs.length) :
    SchnorrWitness.fromValues zs = .error (.TooManyScalars 1 zs.length) := by
  cases zs with
  | nil => simp at h
  | cons a t =>
      cases t with
      | nil => simp at h
      | cons b t' => rfl

theorem ChaumWitness.fromValues_longC (zs : List F) (h : 1 < zs.length) :
    ChaumWitness.fromValues zs = .error (.TooManyScalars 1 zs.length) := by
  cases zs with
  | nil => simp at h
  | cons a t =>
      cases t with
      | nil => simp at h
      | cons b t' => rfl

theorem ZeroCheckWitness.fromValues_longZ (zs : List F) (h : 1 < zs.length) :
    ZeroCheckWitness.fromValues zs = .error (.TooManyScalars 1 zs.length) := by
  cases zs with
  | nil => simp at h
  | cons a t =>
      cases t with
      | nil => simp at h
      | cons b t' => rfl

theorem OkamotoWitness.fromValues_longO (zs : List F) (h : 2 < zs.length) :
    OkamotoWitness.fromValues zs = .error (.TooManyScalars 2 zs.length) := by
  cases zs with
  | nil => simp at h
  | cons a t =>
      cases t with
      | nil => simp at h
      | cons b t' =>
          cases t' with
          | nil => simp at h
          | cons c t'' => rfl

/-- If the proof bytes parse up to the scalar-reassembly step but
`W::from_values` fails, `verify` returns that error: the commitment blocks
decode, the challenge is squeezed, `verifier_receives_all_scalars` consumes
the whole remainder, and the `from_values` error is propagated by `?`. -/
theorem Protocol.verify_wError {W I : Type} (P : Protocol W I) (X : I)
    (ip : List Gp) (isc : List F) (fv Av : List Gp) (zs : List F)
    (err : SigmaProofError)
    (hf : (P.f X).mapM SymPoint.evaluate = .ok fv)
    (hiP : (P.iPoints X).mapM SymPoint.evaluate = .ok ip)
    (hiS : (P.iScalars X).mapM SymScalar.evaluate = .ok isc)
    (hAlen : Av.length = fv.length)
    (hfrom : P.wFromValues zs = .error err) :
    P.verify X ((Av.map pointCompress).flatten ++ (zs.map scalarToBytes).flatten)
      = .error err := by
  have hAflat : ((Av.map pointCompress).flatten).length = 32 * Av.length :=
    join_map_length_32 _ pointCompress_length Av
  have hZflat : ((zs.map scalarToBytes).flatten).length = 32 * zs.length :=
    join_map_length_32 _ scalarToBytes_length zs
  have hdrop0 : (((Av.map pointCompress).flatten ++ (zs.map scalarToBytes).flatten).drop 0)
      = (Av.map pointCompress).flatten ++ (zs.map scalarToBytes).flatten := List.drop_zero _
  have hdropA : (((Av.map pointCompress).flatten ++ (zs.map scalarToBytes).flatten).drop
      (0 + 32 * Av.length)) = (zs.map scalarToBytes).flatten := by
    rw [Nat.zero_add, ← hAflat, List.drop_left]
  have hcond : ¬(((Av.map pointCompress).flatten ++ (zs.map scalarToBytes).flatten).length % 32
      ≠ 0) := by
    rw [List.length_append, hAflat, hZflat]
    omega
  rw [Protocol.verify, if_neg hcond]
  simp only [hf, exceptBind_ok, ProofTranscript.newVerifier]
  rw [foldlM_commonPoints labelEmpty (P.iPoints X) _ ip hiP]
  simp only [exceptBind_ok]
  rw [foldlM_commonScalars labelEmpty (P.iScalars X) _ isc hiS]
  simp only [exceptBind_ok]
  rw [← hAlen]
  rw [verifierReceivePoints_enc labelR Av ((zs.map scalarToBytes).flatten) _ hdrop0]
  simp only [exceptBind_ok, ProofTranscript.challenge]
  rw [verifierReceivesAllScalars_enc labelZ zs _ hdropA]
  simp only [exceptBind_ok, hfrom, exceptBind_error]

/-- C7: for each of the four shipped protocols, if the proof bytes carry the
expected commitment blocks followed by strictly more than `N_w` canonical
32-byte scalar blocks, `verifier_receives_all_scalars` consumes the entire
remainder and `verify` fails with `TooManyScalars{expected: N_w, actual}`
raised by the derived `from_values`: the proof is not accepted and no code
path panics. -/
theorem c7_extra_scalars :
    (∀ (X : SchnorrInstance) (Pv : Gp), X.pubkey.evaluate = .ok Pv →
      ∀ (A1 : Gp) (zs : List F), 1 < zs.length →
      schnorrProtocol.verify X
        ((([A1]).map pointCompress).flatten ++ (zs.map scalarToBytes).flatten)
        = .error (.TooManyScalars 1 zs.length)) ∧
    (∀ (h : Gp) (X : OkamotoInstance) (Pv : Gp), X.point.evaluate = .ok Pv →
      ∀ (A1 : Gp) (zs : List F), 2 < zs.length →
      (okamotoProtocol h).verify X
        ((([A1]).map pointCompress).flatten ++ (zs.map scalarToBytes).flatten)
        = .error (.TooManyScalars 2 zs.length)) ∧
    (∀ (h : Gp) (X : ChaumInstance) (P1 P2 : Gp),
      X.point1.evaluate = .ok P1 → X.point2.evaluate = .ok P2 →
      ∀ (A1 A2 : Gp) (zs : List F), 1 < zs.length →
      (chaumProtocol h).verify X
        ((([A1, A2]).map pointCompress).flatten ++ (zs.map scalarToBytes).flatten)
        = .error (.TooManyScalars 1 zs.length)) ∧
    (∀ (X : ZeroCheckInstance) (Pk Cv Hv : Gp),
      X.pubkey.evaluate = .ok Pk → X.commitment.evaluate = .ok Cv →
      X.handle.evaluate = .ok Hv →
      ∀ (A1 A2 : Gp) (zs : List F), 1 < zs.length →
      zeroCheckProtocol.verify X
        ((([A1, A2]).map pointCompress).flatten ++ (zs.map scalarToBytes).flatten)
        = .error (.TooManyScalars 1 zs.length)) := by
  refine ⟨?_, ?_, ?_, ?_⟩
  · intro X Pv hX A1 zs hlen
    exact Protocol.verify_wError schnorrProtocol X [Pv] [] [Pv] [A1] zs _
      (by simp [schnorrProtocol, List.mapM.loop, hX])
      (by simp [schnorrProtocol, SchnorrInstance.points, List.mapM.loop, hX])
      (by simp [schnorrProtocol, SchnorrInstance.scalars, List.mapM.loop])
      rfl (SchnorrWitness.fromValues_long zs hlen)
  · intro h X Pv hX A1 zs hlen
    exact Protocol.verify_wError (okamotoProtocol h) X [Pv] [] [Pv] [A1] zs _
      (by simp [okamotoProtocol, List.mapM.loop, hX])
      (by simp [okamotoProtocol, OkamotoInstance.points, List.mapM.loop, hX])
      (by simp [okamotoProtocol, OkamotoInstance.scalars, List.mapM.loop])
      rfl (OkamotoWitness.fromValues_longO zs hlen)
  · intro h X P1 P2 h1 h2 A1 A2 zs hlen
    exact Protocol.verify_wError (chaumProtocol h) X [P1, P2] [] [P1, P2] [A1, A2] zs _
      (by simp [chaumProtocol, List.mapM.loop, h1, h2])
      (by simp [chaumProtocol, ChaumInstance.points, List.mapM.loop, h1, h2])
      (by simp [chaumProtocol, ChaumInstance.scalars, List.mapM.loop])
      rfl (ChaumWitness.fromValues_longC zs hlen)
  · intro X Pk Cv Hv hk hc hh A1 A2 zs hlen
    exact Protocol.verify_wError zeroCheckProtocol X [Pk, Cv, Hv] [] [Cv, Hv] [A1, A2] zs _
      (by simp [zeroCheckProtocol, List.mapM.loop, hc, hh])
      (by simp [zeroCheckProtocol, ZeroCheckInstance.points, List.mapM.loop, hk, hc, hh])
      (by simp [zeroCheckProtocol, ZeroCheckInstance.scalars, List.mapM.loop])
      rfl (ZeroCheckWitness.fromValues_longZ zs hlen)

/-- Witness for C7: a Schnorr proof with the one commitment block followed
by two canonical scalar blocks is rejected with `TooManyScalars{1, 2}`. -/
theorem c7_extra_scalars_witness :
    (SymPoint.Const (3 : Gp)).evaluate = .ok 3 ∧
    1 < ([(1 : F), 2]).length ∧
    schnorrProtocol.verify ⟨.Const 3⟩
      ((([(5 : Gp)]).map pointCompress).flatten
        ++ (([(1 : F), 2]).map scalarToBytes).flatten)
      = .error (.TooManyScalars 1 ([(1 : F), 2]).length) :=
  ⟨rfl, by simp, c7_extra_scalars.1 ⟨.Const 3⟩ 3 rfl 5 [1, 2] (by simp)⟩

/-- A protocol value exhibiting the arity mismatch quantified over in the
spec: its `f` returns three points but its `psi` returns two.  The witness
and instance machinery is reused from the Schnorr protocol; only `f` and
`psi` differ. -/
def mismatchProtocol : Protocol SchnorrWitness SchnorrInstance where
  label := ("mismatch".toList).map Char.toNat
  wRand := SchnorrWitness.rand
  wValues := SchnorrWitness.values
  wFromValues := SchnorrWitness.fromValues
  wNumScalars := 1
  iPoints := fun _ => []
  iScalars := fun _ => []
  f := fun inst => [inst.pubkey, inst.pubkey, inst.pubkey]
  psi := fun w _ => [.Scale w.privatekey (.Const basepoint),
    .Scale w.privatekey (.Const basepoint)]

/-- C8 (amended): for every protocol and instance whose proof bytes parse —
the instance and `f(X)` evaluate, the commitment blocks decode, and the
trailing scalar blocks reassemble through `W::from_values` — a mismatch
between the output arities of the reassembled `psi` and of `f` makes
`verify` fail with `PsiOutputLengthMismatch`, without panicking.  (As
stated the claim is false: on proof bytes that do not reach the arity
check — e.g. a buffer whose length is not a multiple of 32, or one too
short for the commitment blocks — `verify` fails earlier with a transcript
error, not `PsiOutputLengthMismatch`.) -/
theorem c8_psi_mismatch {W I : Type} (P : Protocol W I) (X : I)
    (ip : List Gp) (isc : List F) (fv Av : List Gp) (zs : List F) (Zw : W)
    (hf : (P.f X).mapM SymPoint.evaluate = .ok fv)
    (hiP : (P.iPoints X).mapM SymPoint.evaluate = .ok ip)
    (hiS : (P.iScalars X).mapM SymScalar.evaluate = .ok isc)
    (hAlen : Av.length = fv.length)
    (hfrom : P.wFromValues zs = .ok Zw)
    (hmis : (P.psi Zw X).length ≠ fv.length) :
    P.verify X ((Av.map pointCompress).flatten ++ (zs.map scalarToBytes).flatten)
      = .error .PsiOutputLengthMismatch := by
  have hAflat : ((Av.map pointCompress).flatten).length = 32 * Av.length :=
    join_map_length_32 _ pointCompress_length Av
  have hZflat : ((zs.map scalarToBytes).flatten).length = 32 * zs.length :=
    join_map_length_32 _ scalarToBytes_length zs
  have hdrop0 : (((Av.map pointCompress).flatten ++ (zs.map scalarToBytes).flatten).drop 0)
      = (Av.map pointCompress).flatten ++ (zs.map scalarToBytes).flatten := List.drop_zero _
  have hdropA : (((Av.map pointCompress).flatten ++ (zs.map scalarToBytes).flatten).drop
      (0 + 32 * Av.length)) = (zs.map scalarToBytes).flatten := by
    rw [Nat.zero_add, ← hAflat, List.drop_left]
  have hcond : ¬(((Av.map pointCompress).flatten ++ (zs.map scalarToBytes).flatten).length % 32
      ≠ 0) := by
    rw [List.length_append, hAflat, hZflat]
    omega
  rw [Protocol.verify, if_neg hcond]
  simp only [hf, exceptBind_ok, ProofTranscript.newVerifier]
  rw [foldlM_commonPoints labelEmpty (P.iPoints X) _ ip hiP]
  simp only [exceptBind_ok]
  rw [foldlM_commonScalars labelEmpty (P.iScalars X) _ isc hiS]
  simp only [exceptBind_ok]
  rw [← hAlen]
  rw [verifierReceivePoints_enc labelR Av ((zs.map scalarToBytes).flatten) _ hdrop0]
  simp only [exceptBind_ok, ProofTranscript.challenge]
  rw [verifierReceivesAllScalars_enc labelZ zs _ hdropA]
  simp only [exceptBind_ok, hfrom]
  rw [if_pos (by rw [hAlen]; exact Ne.symm hmis)]

/-- Counterexample for C8 as stated: `mismatchProtocol` has the quantified
arity mismatch (`f` yields 3 points, `psi` yields 2), yet on the one-byte
proof `[0]` — whose length is not a multiple of 32 — `verify` fails with
`TranscriptFinalizationFailed`, not `PsiOutputLengthMismatch`. -/
theorem c8_psi_mismatch_counterexample :
    (mismatchProtocol.f ⟨.Const 1⟩).length = 3 ∧
    (mismatchProtocol.psi ⟨.Var none⟩ ⟨.Const 1⟩).length = 2 ∧
    mismatchProtocol.verify ⟨.Const 1⟩ [0] = .error .TranscriptFinalizationFailed ∧
    mismatchProtocol.verify ⟨.Const 1⟩ [0] ≠ .error .PsiOutputLengthMismatch := by
  have hv : mismatchProtocol.verify ⟨.Const 1⟩ [0]
      = .error .TranscriptFinalizationFailed := by
    rw [Protocol.verify, if_pos (by simp)]
  exact ⟨rfl, rfl, hv,
    fun h => SigmaProofError.noConfusion (Except.error.inj ((hv ▸ h : _)))⟩

/-- Witness for C8: `c8_psi_mismatch` applied to `mismatchProtocol` on a
fully parsing proof (three commitment blocks, one canonical scalar
block). -/
theorem c8_psi_mismatch_witness :
    (mismatchProtocol.f ⟨.Const (1 : Gp)⟩).mapM SymPoint.evaluate
      = .ok [1, 1, 1] ∧
    mismatchProtocol.wFromValues [(5 : F)] = .ok ⟨.Var (some 5)⟩ ∧
    (mismatchProtocol.psi ⟨.Var (some (5 : F))⟩ ⟨.Const 1⟩).length
      ≠ ([1, 1, 1] : List Gp).length ∧
    mismatchProtocol.verify ⟨.Const (1 : Gp)⟩
      ((([2, 3, 4] : List Gp).map pointCompress).flatten
        ++ (([(5 : F)]).map scalarToBytes).flatten)
      = .error .PsiOutputLengthMismatch :=
  ⟨rfl, rfl, by decide,
    c8_psi_mismatch mismatchProtocol ⟨.Const 1⟩ [] [] [1, 1, 1] [2, 3, 4] [5]
      ⟨.Var (some 5)⟩ rfl rfl rfl rfl rfl (by decide)⟩
